import Mathlib

/-!
Verification of the `autoparser` module (`src/autoparser.py`): a reflective
dataclass-to-argparse bridge.  The Python source is shallowly embedded below:
each Python function becomes a Lean function over explicit data, the mutable
parser/builder objects become explicit state values, and raising becomes an
error-carrying result.  The underlying `argparse` library is an external
collaborator of the module; the small fragment of its behaviour the claims
depend on (argument registration records, namespace attributes, token
parsing for the argument shapes this module produces) is modelled explicitly.
-/

set_option autoImplicit false

namespace Autoparser

/-! ## Python values and types

`PyVal` covers the Python values the module manipulates: booleans, integers,
strings, `None`, and the `dataclasses.MISSING` sentinel (`f.default` /
`f.default_factory` hold `MISSING` when absent). -/

inductive PyVal where
  | vBool (b : Bool)
  | vInt (n : Int)
  | vStr (s : String)
  | vNone
  | vMissing
deriving DecidableEq

/-- Declared (annotation) types.  The module compares the declared type against
`bool` by identity; the variant with extended resolution also inspects union
types, sequence wrappers and other parameterized forms, represented here
structurally. -/
inductive PyType where
  | bool
  | int
  | str
  | noneType
  | union (args : List PyType)
  | seqOf (args : List PyType)
  | param (head : String) (args : List PyType)

/-- `typ is bool` in the source. -/
def PyType.isBool : PyType → Bool
  | .bool => true
  | _ => false

/-- Is this the null type (`NoneType`)? -/
def PyType.isNone : PyType → Bool
  | .noneType => true
  | _ => false

/-! ## argparse keyword dictionaries

`kwargs` dictionaries map string keys to heterogeneous values; the module
stores action strings, type objects and default values in them. -/

inductive KwVal where
  | str (s : String)
  | typ (t : PyType)
  | val (v : PyVal)

abbrev Kwargs := List (String × KwVal)

def kwGet (kw : Kwargs) (k : String) : Option KwVal :=
  match kw with
  | [] => none
  | (k0, v0) :: rest => if k0 = k then some v0 else kwGet rest k

/-- `k in kw` -/
def kwHas (kw : Kwargs) (k : String) : Bool :=
  (kwGet kw k).isSome

/-- `kw[k] = v` (replace in place or append, as a dict assignment). -/
def kwSet (kw : Kwargs) (k : String) (v : KwVal) : Kwargs :=
  match kw with
  | [] => [(k, v)]
  | (k0, v0) :: rest => if k0 = k then (k0, v) :: rest else (k0, v0) :: kwSet rest k v

/-- `kw.setdefault(k, v)` -/
def kwSetdefault (kw : Kwargs) (k : String) (v : KwVal) : Kwargs :=
  if kwHas kw k then kw else kw ++ [(k, v)]

/-! ## Field annotations and fields -/

/-- The `Arg` annotation carrier: flags plus extra argparse keyword options. -/
structure Arg where
  flags : List String
  kwargs : Kwargs

/-- One metadata item of an `Annotated[...]` wrapper: an `Arg` or anything else. -/
inductive AnnMeta where
  | arg (a : Arg)
  | other

/-- A field's declared type: either a plain type or `Annotated[base, *meta]`. -/
inductive FieldAnn where
  | plain (t : PyType)
  | annotated (base : PyType) (meta : List AnnMeta)

/-- A dataclass field: name, declared (annotated) type, `default`
(`.vMissing` when the field declares none) and `default_factory`
(`none` when absent; `some v` stands for a factory producing `v`). -/
structure Field where
  name : String
  ann : FieldAnn
  default : PyVal
  factory : Option PyVal

/-- `_extract_field_options`: return `(base_type, flags, argparse_kwargs)`. -/
def _extract_field_options : FieldAnn → PyType × List String × Kwargs
  | .plain t => (t, [], [])
  | .annotated base meta =>
    match meta.findSome? (fun m => match m with | .arg a => some a | .other => none) with
    | some a => (base, if a.flags.isEmpty then [] else a.flags, a.kwargs)
    | none => (base, [], [])

/-! ## Registered arguments

`parser.add_argument(*flags, **kw)` is modelled as appending an `ArgSpec`
record to the parser's argument list.  `dest` is `some name` exactly when the
source passes `dest=f.name` (the non-positional branch); otherwise argparse
derives the destination from the flag strings. -/

structure ArgSpec where
  flags : List String
  dest : Option String
  kwargs : Kwargs

/-- Character substitution used by `f.name.replace('_', '-')` (single-character
pattern, hence a per-character map). -/
def undToDash (c : Char) : Char := if c = '_' then '-' else c

def dashToUnd (c : Char) : Char := if c = '-' then '_' else c

/-- `"--" + f.name.replace('_', '-')` -/
def synthFlag (name : String) : String := ⟨'-' :: '-' :: name.data.map undToDash⟩

/-- Does a character list start with the option prefix character? -/
def headIsDash : List Char → Bool
  | [] => false
  | c :: _ => c = '-'

/-- Strip one or two leading dashes (argparse strips the option prefix from a
flag when deriving its destination). -/
def stripDashes : List Char → List Char
  | [] => []
  | c1 :: rest =>
    if c1 = '-' then
      match rest with
      | [] => []
      | c2 :: rest2 => if c2 = '-' then rest2 else rest
    else c1 :: rest

/-- argparse: an argument registered with flag strings beginning with the
prefix character is an optional; otherwise it is positional. -/
def registeredAsPositional (s : ArgSpec) : Bool :=
  match s.flags with
  | [] => true
  | f0 :: _ => !headIsDash f0.data

/-- argparse destination: the explicit `dest` when passed, else derived from
the (first) flag string by stripping leading prefix characters and replacing
remaining dashes with underscores. -/
def specDest (s : ArgSpec) : String :=
  match s.dest with
  | some d => d
  | none =>
    match s.flags with
    | [] => ""
    | f0 :: _ =>
      if headIsDash f0.data then ⟨(stripDashes f0.data).map dashToUnd⟩ else f0

/-- The per-field body of `_add_dataclass_arguments`, after
`_extract_field_options` has produced `(typ, flags0, kw0)`.  Mirrors the
source statement by statement. -/
def translateCore (name : String) (typ : PyType) (flags0 : List String)
    (kw0 : Kwargs) (dflt : PyVal) (factory : Option PyVal) : ArgSpec :=
  let positional := flags0.isEmpty
  let flags :=
    if positional then
      if typ.isBool then [synthFlag name] else [name]
    else flags0
  let kw1 :=
    if typ.isBool then
      if kwHas kw0 "action" then kw0
      else kwSet kw0 "action"
        (.str (if dflt = .vBool true then "store_false" else "store_true"))
    else kwSetdefault kw0 "type" (.typ typ)
  let kw2 :=
    if dflt ≠ .vMissing ∨ factory.isSome then kwSetdefault kw1 "default" (.val dflt)
    else kw1
  { flags := flags
    dest := if positional then none else some name
    kwargs := kw2 }

/-- One iteration of the loop in `_add_dataclass_arguments`. -/
def translateField (f : Field) : ArgSpec :=
  let e := _extract_field_options f.ann
  translateCore f.name e.1 e.2.1 e.2.2 f.default f.factory

/-- `_add_dataclass_arguments`: register one argument per field, in field
declaration order. -/
def _add_dataclass_arguments (fields : List Field) : List ArgSpec :=
  fields.map translateField

/-! ## Extended type resolution (variant revision)

Modelled from the spec: the repository holds several successive revisions of
the module, and the revision with extended declared-type resolution is not
under `src/`.  Per the spec, that variant accepts a plain type; a two-armed
optional/nullable wrapper (extracting the non-null arm, rejecting anything
but exactly two arms with one being the null type); or a single-parameter
sequence wrapper, extracting its element type; any other parameterized or
unrecognized form fails validation before any parser mutation occurs. -/

/-- Modelled from the spec: declared-type resolution of the variant revision
(missing from `src/`).  Returns the resolved value type or a descriptive
error. -/
def resolve_type : PyType → Except String PyType
  | .union args =>
    match args with
    | [a, b] =>
      if a.isNone then .ok b
      else if b.isNone then .ok a
      else .error "unsupported union type: expected exactly two arms with one being the null type"
    | _ => .error "unsupported union type: expected exactly two arms with one being the null type"
  | .seqOf args =>
    match args with
    | [a] => .ok a
    | _ => .error "unsupported sequence type: expected exactly one type parameter"
  | .param _ _ => .error "unsupported parameterized type"
  | t => .ok t

/-- Modelled from the spec: the variant revision's per-field translation,
resolving the declared base type first and failing before the argument is
built when resolution fails. -/
def translate_field_ext (f : Field) : Except String ArgSpec :=
  let e := _extract_field_options f.ann
  match resolve_type e.1 with
  | .error msg => .error msg
  | .ok typ => .ok (translateCore f.name typ e.2.1 e.2.2 f.default f.factory)

/-- Modelled from the spec: the variant revision's populator loop.  `acc` is
the list of arguments already registered on the parser; a validation failure
stops the loop and leaves the parser with exactly the arguments registered
so far (failure aborts before later fields; earlier registrations are not
rolled back). -/
def _add_dataclass_arguments_ext (acc : List ArgSpec) :
    List Field → List ArgSpec × Option String
  | [] => (acc, none)
  | f :: rest =>
    match translate_field_ext f with
    | .error msg => (acc, some msg)
    | .ok s => _add_dataclass_arguments_ext (acc ++ [s]) rest

/-! ## Dataclasses, namespaces, and reconstruction -/

/-- A dataclass type: its identity (class name) and its fields. -/
structure DC where
  clsName : String
  fields : List Field

/-- A value stored in an `argparse.Namespace` attribute: an ordinary parsed
value, or one of the plumbing markers stamped by `set_defaults` (`_cls`
holds a dataclass type, `_handler` holds a handler function, identified
here by name). -/
inductive NsVal where
  | py (v : PyVal)
  | cls (d : DC)
  | fn (h : String)

/-- An `argparse.Namespace`: a finite attribute map. -/
abbrev Namespace := List (String × NsVal)

def nsGet (ns : Namespace) (k : String) : Option NsVal :=
  match ns with
  | [] => none
  | (k0, v0) :: rest => if k0 = k then some v0 else nsGet rest k

/-- `hasattr(ns, k)` -/
def nsHas (ns : Namespace) (k : String) : Bool :=
  (nsGet ns k).isSome

/-- `delattr(ns, k)` (no-op when absent, as guarded in the source). -/
def nsDel (ns : Namespace) (k : String) : Namespace :=
  ns.filter (fun p => ¬(p.1 = k))

/-- `_namespace_to_dataclass`: read one attribute per field of `cls` and build
the instance from them (`none` models the `AttributeError` of a missing
attribute).  An instance is represented by its field-name/value rows in
field declaration order. -/
def _namespace_to_dataclass (ns : Namespace) (d : DC) :
    Option (List (String × NsVal)) :=
  d.fields.mapM (fun f => (nsGet ns f.name).map (fun v => (f.name, v)))

/-! ## The builder (`_Parser`) -/

/-- The schema argument of `_Parser.__init__` / `add_subparser`: a dataclass,
a `tuple[str, ...]` of permitted sub-command names, or anything else. -/
inductive SchemaSpec where
  | dataclass (d : DC)
  | names (ns : List String)
  | other

/-- State of one `_Parser` node together with its underlying
`argparse.ArgumentParser`:
`rootCls`/`namesLeft` are the builder's own attributes; `hasSub` records
whether `add_subparsers` was called; `args` the registered arguments;
`children` the sub-parsers attached by `add_parser` (by sub-command name);
`defaults` the parser's `set_defaults` entries. -/
structure Builder where
  rootCls : Option DC
  hasSub : Bool
  namesLeft : List String
  args : List ArgSpec
  children : List (String × Builder)
  defaults : List (String × NsVal)

/-- `_Parser.__init__` on a fresh underlying parser. -/
def _Parser_init (schema : SchemaSpec) : Except String Builder :=
  match schema with
  | .names ns =>
    if ns.isEmpty then .error "tuple[str,...] must list at least one sub-command"
    else .ok { rootCls := none, hasSub := true, namesLeft := ns.eraseDups,
               args := [], children := [], defaults := [] }
  | .dataclass d =>
    .ok { rootCls := some d, hasSub := false, namesLeft := [],
          args := _add_dataclass_arguments d.fields, children := [], defaults := [] }
  | .other => .error "schema must be dataclass or tuple[str,...]"

/-- Outcome of `add_subparser`.  Python exceptions do not roll back the
mutations already applied to `self`, so the error case carries the parent
builder state as it stands when the exception is raised. -/
inductive RegOutcome where
  | ok (parent : Builder) (child : Builder)
  | err (msg : String) (parent : Builder)

def RegOutcome.isOk : RegOutcome → Bool
  | .ok _ _ => true
  | .err _ _ => false

def RegOutcome.errMsg : RegOutcome → Option String
  | .ok _ _ => none
  | .err m _ => some m

/-- The parent builder state after the call (mutations included), whether or
not it raised. -/
def RegOutcome.parentAfter : RegOutcome → Builder
  | .ok p _ => p
  | .err _ p => p

/-- `_Parser.add_subparser`, with the source's mutation order: membership
check, removal from `_names_left`, `add_parser` (attaching the child),
child `_Parser` construction, then the leaf/handler checks. -/
def add_subparser (b : Builder) (name : String) (schema : SchemaSpec)
    (func : Option String) : RegOutcome :=
  if ¬b.hasSub then .err "Cannot add subparsers when root is a dataclass" b
  else if ¬b.namesLeft.contains name then .err ("Unknown subcommand: " ++ name) b
  else
    let b1 := { b with namesLeft := b.namesLeft.filter (fun n => ¬(n = name)) }
    match _Parser_init schema with
    | .error e =>
      -- `add_parser` has attached a fresh bare sub-parser before `__init__` raised
      let bare : Builder :=
        { rootCls := none, hasSub := false, namesLeft := [],
          args := [], children := [], defaults := [] }
      .err e { b1 with children := b1.children ++ [(name, bare)] }
    | .ok child =>
      match schema with
      | .dataclass d =>
        match func with
        | none =>
          .err "Leaf subparser requires a handler"
            { b1 with children := b1.children ++ [(name, child)] }
        | some h =>
          let child2 := { child with defaults := child.defaults ++ [("_cls", .cls d), ("_handler", .fn h)] }
          .ok { b1 with children := b1.children ++ [(name, child2)] } child2
      | _ =>
        match func with
        | some _ =>
          .err "Handler can only be attached to a dataclass leaf"
            { b1 with children := b1.children ++ [(name, child)] }
        | none =>
          .ok { b1 with children := b1.children ++ [(name, child)] } child

/-! ## `parse_args` (post-processing of the parsed namespace)

The call `self._parser.parse_args(argv)` delegates token parsing to the
external library; `parse_args_post` embeds everything the method does with
the namespace it returns.  `usageError` models `self._parser.error(...)`
(usage error and exit); `attrError` models an uncaught `AttributeError` /
type confusion on the marker attributes. -/

inductive ParseRes where
  | result (inst : List (String × NsVal)) (func : Option String)
  | usageError (msg : String)
  | attrError

/-- The scrub loop: `for x in ('_cls', '_handler', '_cmd'): delattr if present`. -/
def nsScrub (ns : Namespace) : Namespace :=
  nsDel (nsDel (nsDel ns "_cls") "_handler") "_cmd"

def parse_args_post (b : Builder) (ns : Namespace) : ParseRes :=
  if ¬nsHas ns "_handler" ∧ ¬b.hasSub ∧ b.rootCls.isSome then
    match b.rootCls with
    | some d =>
      match _namespace_to_dataclass ns d with
      | some inst => .result inst none
      | none => .attrError
    | none => .attrError
  else if ¬nsHas ns "_cls" then .usageError "No valid sub-command given"
  else
    match nsGet ns "_cls", nsGet ns "_handler" with
    | some (.cls d), some (.fn h) =>
      match _namespace_to_dataclass (nsScrub ns) d with
      | some inst => .result inst (some h)
      | none => .attrError
    | _, _ => .attrError

/-! ## Token-level model of the external parsing library

The claims about round-tripping need the behaviour of
`argparse.ArgumentParser.parse_args` on the argument shapes this module
produces: single-token positionals with a converter, zero-argument
`store_true`/`store_false` optionals, and one-argument typed optionals.
The model below follows argparse's documented behaviour on that fragment:
a token is option-like when it starts with the prefix character and is not
a negative number (the parser's flags never look like negative numbers);
optionals are matched by exact flag string; positional tokens are assigned
to the positional arguments in registration order; defaults fill unset
destinations, with `store_true`/`store_false` contributing their standard
implicit defaults and plain optionals defaulting to `None`. -/

/-- Decimal digit character for `d < 10`. -/
def digitChar (d : Nat) : Char := Char.ofNat (48 + d)

/-- Decimal digits of `n`, least-significant first (empty for `0`). -/
def natDigitsRev : Nat → List Char
  | 0 => []
  | n + 1 => digitChar ((n + 1) % 10) :: natDigitsRev ((n + 1) / 10)
decreasing_by exact Nat.div_lt_self (Nat.succ_pos n) (by decide)

/-- `str(n)` for a natural number. -/
def natToken (n : Nat) : List Char :=
  if n = 0 then ['0'] else (natDigitsRev n).reverse

/-- `str(i)` for an integer. -/
def intTokenChars : Int → List Char
  | .ofNat m => natToken m
  | .negSucc m => '-' :: natToken (m + 1)

/-- `str(v)`: the command-line token rendering a value. -/
def valToken : PyVal → String
  | .vInt i => ⟨intTokenChars i⟩
  | .vStr s => s
  | .vBool b => if b then "True" else "False"
  | .vNone => "None"
  | .vMissing => "MISSING"

/-- Accumulating decimal parse of a digit string (`none` on a non-digit). -/
def parseDigits (acc : Nat) : List Char → Option Nat
  | [] => some acc
  | c :: cs => if c.isDigit then parseDigits (10 * acc + (c.toNat - 48)) cs else none

/-- Python `int(s)` on the strings this development renders (optional sign,
then decimal digits; empty digit strings rejected). -/
def parsePyInt (s : String) : Option Int :=
  match s.data with
  | [] => none
  | c :: cs =>
    if c = '-' then
      if cs.isEmpty then none
      else (parseDigits 0 cs).map (fun n => -(Int.ofNat n))
    else (parseDigits 0 (c :: cs)).map Int.ofNat

/-- argparse's negative-number test: a dash followed by one or more digits. -/
def isNegNumberTok (s : String) : Bool :=
  match s.data with
  | c :: c2 :: cs => if c = '-' then (c2 :: cs).all Char.isDigit else false
  | _ => false

/-- Token classification: option-like unless it is a negative number (none of
the registered flags look like negative numbers in this fragment). -/
def isOptionTok (s : String) : Bool :=
  match s.data with
  | c :: _ => if c = '-' then !isNegNumberTok s else false
  | [] => false

/-- The first registered optional whose flag strings contain `t`. -/
def findSpecByFlag (specs : List ArgSpec) (t : String) : Option ArgSpec :=
  specs.find? (fun s => ¬registeredAsPositional s ∧ s.flags.contains t)

/-- Apply an argument's converter (`type` keyword; argparse's default
converter is the identity on the token string). -/
def convertTok (kw : Kwargs) (t : String) : Except String PyVal :=
  match kwGet kw "type" with
  | some (.typ .int) =>
    match parsePyInt t with
    | some n => .ok (.vInt n)
    | none => .error ("invalid int value: " ++ t)
  | some (.typ .str) => .ok (.vStr t)
  | some (.typ _) => .error "unsupported converter"
  | _ => .ok (.vStr t)

/-- First pass over the tokens: resolve option-like tokens against the
registered optionals (applying `store_true`/`store_false` or consuming one
converted argument) and queue the remaining tokens for the positionals.
Assignments are produced in token order.  `pending` carries an optional
argument whose one value token is still expected (this makes the scan
structurally recursive on the token list). -/
def scanTokens (specs : List ArgSpec) :
    Option ArgSpec → List String → Except String (List (String × PyVal) × List String)
  | some s, [] => .error ("argument " ++ s.flags.headD "" ++ ": expected one argument")
  | some s, w :: rest =>
    if isOptionTok w then
      .error ("argument " ++ s.flags.headD "" ++ ": expected one argument")
    else
      match convertTok s.kwargs w with
      | .error e => .error e
      | .ok v =>
        match scanTokens specs none rest with
        | .error e => .error e
        | .ok (asg, posQ) => .ok ((specDest s, v) :: asg, posQ)
  | none, [] => .ok ([], [])
  | none, t :: rest =>
    if isOptionTok t then
      match findSpecByFlag specs t with
      | none => .error ("unrecognized arguments: " ++ t)
      | some s =>
        match kwGet s.kwargs "action" with
        | some (.str a) =>
          if a = "store_true" ∨ a = "store_false" then
            match scanTokens specs none rest with
            | .error e => .error e
            | .ok (asg, posQ) => .ok ((specDest s, .vBool (a = "store_true")) :: asg, posQ)
          else .error "unsupported action"
        | _ => scanTokens specs (some s) rest
    else
      match scanTokens specs none rest with
      | .error e => .error e
      | .ok (asg, posQ) => .ok (asg, t :: posQ)

/-- Second pass: assign the queued positional tokens to the positional
arguments in registration order, one token each, converting each. -/
def assignPositionals :
    List ArgSpec → List String → Except String (List (String × PyVal))
  | [], [] => .ok []
  | [], t :: _ => .error ("unrecognized arguments: " ++ t)
  | s :: _, [] => .error ("the following arguments are required: " ++ specDest s)
  | s :: ss, t :: ts =>
    match convertTok s.kwargs t with
    | .error e => .error e
    | .ok v =>
      match assignPositionals ss ts with
      | .error e => .error e
      | .ok rest => .ok ((specDest s, v) :: rest)

/-- The implicit default contributed by a `store_true`/`store_false`
action (argparse's action classes carry these defaults). -/
def actionDefault (s : ArgSpec) : PyVal :=
  match kwGet s.kwargs "action" with
  | some (.str a) =>
    if a = "store_false" then .vBool true
    else if a = "store_true" then .vBool false
    else .vNone
  | _ => .vNone

/-- The value a destination holds when no token set it: the explicit
`default` keyword when present, else the implicit default of the action
(`store_true` → `False`, `store_false` → `True`), else `None`. -/
def defaultFor (s : ArgSpec) : PyVal :=
  match kwGet s.kwargs "default" with
  | some (.val v) => v
  | _ => actionDefault s

/-- The last assignment to destination `d` wins (argparse stores overwrite). -/
def lastAssign (asg : List (String × PyVal)) (d : String) : Option PyVal :=
  match asg with
  | [] => none
  | (k, v) :: rest =>
    match lastAssign rest d with
    | some w => some w
    | none => if k = d then some v else none

/-- `parser.parse_args(tokens)` for a parser holding `specs`: returns the
resulting namespace or a usage error. -/
def runParse (specs : List ArgSpec) (tokens : List String) :
    Except String Namespace :=
  match scanTokens specs none tokens with
  | .error e => .error e
  | .ok (asg, posQ) =>
    match assignPositionals (specs.filter registeredAsPositional) posQ with
    | .error e => .error e
    | .ok posAsg =>
      .ok (specs.map (fun s =>
        (specDest s,
         NsVal.py (match lastAssign (asg ++ posAsg) (specDest s) with
                   | some v => v
                   | none => defaultFor s))))

/-! ## Rendering an instance to equivalent tokens (the spec's round-trip)

Per the spec's round-trip property: flag tokens for optional/flagged fields,
positional tokens for the rest, in field declaration order.  A toggle flag
is emitted exactly when the value it stores is the instance's value (the
tokens must be equivalent to the instance). -/

def renderField (f : Field) (v : PyVal) : List String :=
  let s := translateField f
  match kwGet s.kwargs "action" with
  | some (.str a) =>
    if (a = "store_true" ∧ v = .vBool true) ∨ (a = "store_false" ∧ v = .vBool false)
    then [s.flags.headD ""] else []
  | _ =>
    if registeredAsPositional s then [valToken v]
    else [s.flags.headD "", valToken v]

/-- Render one instance (field values in declaration order) to tokens. -/
def renderTokens (fields : List Field) (vals : List PyVal) : List String :=
  (fields.zip vals).foldr (fun p acc => renderField p.1 p.2 ++ acc) []

/-- The instance built from `fields`/`vals` directly. -/
def instOf (fields : List Field) (vals : List PyVal) : List (String × NsVal) :=
  (fields.zip vals).map (fun p => (p.1.name, NsVal.py p.2))

/-- The full round trip of the spec: build the parser from the schema, render
the instance to tokens, parse them, reconstruct. -/
def roundTrip (d : DC) (vals : List PyVal) : Except String (List (String × NsVal)) :=
  let specs := _add_dataclass_arguments d.fields
  match runParse specs (renderTokens d.fields vals) with
  | .error e => .error e
  | .ok ns =>
    match _namespace_to_dataclass ns d with
    | some inst => .ok inst
    | none => .error "AttributeError"

/-! ## Basic lemmas about keyword dictionaries -/

theorem kwGet_append_single (kw : Kwargs) (k k2 : String) (v2 : KwVal)
    (h : k ≠ k2) : kwGet (kw ++ [(k2, v2)]) k = kwGet kw k := by
  induction kw with
  | nil =>
    simp only [List.nil_append, kwGet]
    rw [if_neg (fun hh => h hh.symm)]
  | cons p rest ih =>
    simp only [List.cons_append, kwGet]
    split <;> simp [ih]

theorem kwGet_kwSetdefault_ne (kw : Kwargs) (k k2 : String) (v2 : KwVal)
    (h : k ≠ k2) : kwGet (kwSetdefault kw k2 v2) k = kwGet kw k := by
  unfold kwSetdefault
  split
  · rfl
  · exact kwGet_append_single kw k k2 v2 h

theorem kwGet_kwSet_self (kw : Kwargs) (k : String) (v : KwVal) :
    kwGet (kwSet kw k v) k = some v := by
  induction kw with
  | nil => simp [kwSet, kwGet]
  | cons p rest ih =>
    simp only [kwSet]
    split
    · next heq => simp [kwGet, heq]
    · next hne => simp [kwGet, hne, ih]

theorem kwGet_kwSetdefault_absent (kw : Kwargs) (k : String) (v : KwVal)
    (h : kwHas kw k = false) : kwGet (kwSetdefault kw k v) k = some v := by
  unfold kwSetdefault
  rw [h]
  simp only [Bool.false_eq_true, if_false]
  induction kw with
  | nil => simp [kwGet]
  | cons p rest ih =>
    simp only [kwHas, kwGet] at h
    simp only [List.cons_append, kwGet]
    split
    · next heq => simp [heq] at h
    · next hne =>
      apply ih
      simp only [kwHas]
      split at h
      · simp at h
      · exact h

theorem kwGet_kwSetdefault_present (kw : Kwargs) (k : String) (v : KwVal)
    (h : kwHas kw k = true) : kwSetdefault kw k v = kw := by
  unfold kwSetdefault
  rw [h]
  simp

/-! ## Unfolding lemmas for the translator -/

theorem translateCore_flags (name : String) (typ : PyType) (flags0 : List String)
    (kw0 : Kwargs) (dflt : PyVal) (fac : Option PyVal) :
    (translateCore name typ flags0 kw0 dflt fac).flags =
      if flags0.isEmpty then
        (if typ.isBool then [synthFlag name] else [name])
      else flags0 := rfl

theorem translateCore_dest (name : String) (typ : PyType) (flags0 : List String)
    (kw0 : Kwargs) (dflt : PyVal) (fac : Option PyVal) :
    (translateCore name typ flags0 kw0 dflt fac).dest =
      if flags0.isEmpty then none else some name := rfl

/-- The keyword dictionary after the boolean-action / converter step. -/
def kwStep1 (typ : PyType) (kw0 : Kwargs) (dflt : PyVal) : Kwargs :=
  if typ.isBool then
    if kwHas kw0 "action" then kw0
    else kwSet kw0 "action"
      (.str (if dflt = .vBool true then "store_false" else "store_true"))
  else kwSetdefault kw0 "type" (.typ typ)

theorem translateCore_kwargs (name : String) (typ : PyType) (flags0 : List String)
    (kw0 : Kwargs) (dflt : PyVal) (fac : Option PyVal) :
    (translateCore name typ flags0 kw0 dflt fac).kwargs =
      if dflt ≠ .vMissing ∨ fac.isSome then
        kwSetdefault (kwStep1 typ kw0 dflt) "default" (.val dflt)
      else kwStep1 typ kw0 dflt := rfl

theorem translateField_eq (f : Field) :
    translateField f = translateCore f.name (_extract_field_options f.ann).1
      (_extract_field_options f.ann).2.1 (_extract_field_options f.ann).2.2
      f.default f.factory := rfl

theorem dashToUnd_undToDash (c : Char) (hc : c ≠ '-') :
    dashToUnd (undToDash c) = c := by
  unfold undToDash dashToUnd
  by_cases h : c = '_'
  · simp [h]
  · simp [h, hc]

theorem headIsDash_false (l : List Char) (h : ∀ c ∈ l, c ≠ '-') :
    headIsDash l = false := by
  cases l with
  | nil => rfl
  | cons c rest =>
    unfold headIsDash
    simp [h c (List.mem_cons_self c rest)]

/-! ## Claim theorems: field translation -/

/-- A concrete field carrying only a `default_factory`
(e.g. `xs: int = field(default_factory=...)`, where the factory would
produce `0`; `f.default` is the `MISSING` sentinel). -/
def exFactoryOnly : Field :=
  { name := "xs", ann := .plain .int, default := .vMissing, factory := some (.vInt 0) }

/-- C1: the claim says that for a field with only a default-factory, the
default attached is the field's usable default rather than a missing-value
sentinel.  Evaluating the code at such a field shows the translator attaches
`f.default` — the `MISSING` sentinel — as the argparse `default`, not the
factory's usable value. -/
theorem C1_factory_only_attaches_missing_sentinel :
    kwGet (translateField exFactoryOnly).kwargs "default" = some (.val .vMissing) ∧
    kwGet (translateField exFactoryOnly).kwargs "default" ≠ some (.val (.vInt 0)) := by
  constructor
  · rfl
  · show some (KwVal.val PyVal.vMissing) ≠ some (KwVal.val (PyVal.vInt 0))
    simp

/-- C3: for a boolean-typed field whose annotation does not supply an
`action`, the translator attaches `store_false` when the declared default is
`True` and `store_true` otherwise (including an absent default); when the
annotation supplies an `action`, the entry is left untouched. -/
theorem C3_bool_implicit_action (f : Field)
    (hb : ((_extract_field_options f.ann).1).isBool = true) :
    (kwHas (_extract_field_options f.ann).2.2 "action" = false →
      kwGet (translateField f).kwargs "action" =
        some (.str (if f.default = .vBool true then "store_false" else "store_true"))) ∧
    (kwHas (_extract_field_options f.ann).2.2 "action" = true →
      kwGet (translateField f).kwargs "action" =
        kwGet (_extract_field_options f.ann).2.2 "action") := by
  rw [translateField_eq]
  generalize (_extract_field_options f.ann) = e at hb ⊢
  obtain ⟨typ, flags0, kw0⟩ := e
  simp only at hb ⊢
  rw [translateCore_kwargs]
  have hstep : ∀ h1, kwGet (if f.default ≠ .vMissing ∨ f.factory.isSome then
      kwSetdefault h1 "default" (.val f.default) else h1) "action" = kwGet h1 "action" := by
    intro h1
    split
    · exact kwGet_kwSetdefault_ne _ _ _ _ (by decide)
    · rfl
  rw [hstep]
  unfold kwStep1
  rw [hb]
  simp only [if_true]
  constructor
  · intro hno
    rw [hno]
    simp only [Bool.false_eq_true, if_false]
    exact kwGet_kwSet_self _ _ _
  · intro hyes
    rw [hyes]
    simp only [if_true]

/-- C4: a field with no explicit flags is registered as a positional named
after the field when its type is not boolean; when the type is boolean it is
registered as an optional with the synthesized
`--<name with underscores replaced by hyphens>` flag, never as a
positional. -/
theorem C4_no_flags_positional_except_bool (f : Field)
    (hfl : (_extract_field_options f.ann).2.1 = [])
    (hname : ∀ c ∈ f.name.data, c ≠ '-') :
    (((_extract_field_options f.ann).1).isBool = false →
      (translateField f).flags = [f.name] ∧
      registeredAsPositional (translateField f) = true ∧
      specDest (translateField f) = f.name) ∧
    (((_extract_field_options f.ann).1).isBool = true →
      (translateField f).flags = [synthFlag f.name] ∧
      registeredAsPositional (translateField f) = false ∧
      specDest (translateField f) = f.name) := by
  rw [translateField_eq]
  generalize (_extract_field_options f.ann) = e at hfl ⊢
  obtain ⟨typ, flags0, kw0⟩ := e
  simp only at hfl ⊢
  subst hfl
  constructor
  · intro hnb
    have hF : (translateCore f.name typ [] kw0 f.default f.factory).flags = [f.name] := by
      rw [translateCore_flags]
      simp [hnb]
    have hD : (translateCore f.name typ [] kw0 f.default f.factory).dest = none := by
      rw [translateCore_dest]; rfl
    refine ⟨hF, ?_, ?_⟩
    · unfold registeredAsPositional
      rw [hF]
      show (!headIsDash f.name.data) = true
      rw [headIsDash_false _ hname]
      rfl
    · unfold specDest
      rw [hF, hD]
      show (if headIsDash f.name.data then
        (⟨(stripDashes f.name.data).map dashToUnd⟩ : String) else f.name) = f.name
      rw [headIsDash_false _ hname]
      simp
  · intro hb
    have hF : (translateCore f.name typ [] kw0 f.default f.factory).flags =
        [synthFlag f.name] := by
      rw [translateCore_flags]
      simp [hb]
    have hD : (translateCore f.name typ [] kw0 f.default f.factory).dest = none := by
      rw [translateCore_dest]; rfl
    refine ⟨hF, ?_, ?_⟩
    · unfold registeredAsPositional
      rw [hF]
      rfl
    · unfold specDest
      rw [hF, hD]
      show (⟨(f.name.data.map undToDash).map dashToUnd⟩ : String) = f.name
      have hmm : (f.name.data.map undToDash).map dashToUnd = f.name.data := by
        rw [List.map_map]
        have hpt : ∀ c ∈ f.name.data, (dashToUnd ∘ undToDash) c = c :=
          fun c hc => dashToUnd_undToDash c (hname c hc)
        rw [List.map_congr_left hpt]
        simp
      rw [hmm]

/-- `verbose: bool = False` with no annotation. -/
def exVerbose : Field :=
  { name := "verbose", ann := .plain .bool, default := .vBool false, factory := none }

theorem C3_bool_implicit_action_witness :
    ((_extract_field_options exVerbose.ann).1.isBool = true) ∧
    (kwHas (_extract_field_options exVerbose.ann).2.2 "action" = false) ∧
    kwGet (translateField exVerbose).kwargs "action" = some (.str "store_true") := by
  refine ⟨rfl, rfl, ?_⟩
  exact (C3_bool_implicit_action exVerbose rfl).1 rfl

/-- `dry_run: bool` with no annotation (boolean, no explicit flags). -/
def exDryRun : Field :=
  { name := "dry_run", ann := .plain .bool, default := .vMissing, factory := none }

theorem C4_no_flags_positional_except_bool_witness :
    ((_extract_field_options exDryRun.ann).2.1 = []) ∧
    (translateField exDryRun).flags = ["--dry-run"] ∧
    registeredAsPositional (translateField exDryRun) = false ∧
    specDest (translateField exDryRun) = "dry_run" := by
  have h := (C4_no_flags_positional_except_bool exDryRun rfl (by decide)).2 rfl
  exact ⟨rfl, h.1, h.2.1, h.2.2⟩

/-! ## Claim theorems: extended type validation (spec-modelled) -/

theorem PyType.isNone_iff (t : PyType) : t.isNone = true ↔ t = .noneType := by
  cases t <;> simp [PyType.isNone]

/-- C2: for a field whose declared type is malformed — a union that is not
exactly a two-armed optional with one null arm, a sequence wrapper with
other than exactly one parameter, or any other parameterized form — the
extended populator fails with a descriptive (nonempty) error and registers
nothing for that field: the parser still holds exactly the arguments
`acc` it held when the field's processing began. -/
theorem C2_malformed_type_fails_before_registration
    (acc : List ArgSpec) (f : Field) (rest : List Field)
    (hbad :
      (∃ args, (_extract_field_options f.ann).1 = .union args ∧
         ∀ a, args ≠ [PyType.noneType, a] ∧ args ≠ [a, PyType.noneType]) ∨
      (∃ args, (_extract_field_options f.ann).1 = .seqOf args ∧ args.length ≠ 1) ∨
      (∃ h0 args, (_extract_field_options f.ann).1 = .param h0 args)) :
    ∃ msg, msg ≠ "" ∧
      resolve_type (_extract_field_options f.ann).1 = .error msg ∧
      _add_dataclass_arguments_ext acc (f :: rest) = (acc, some msg) := by
  have hres : ∃ msg, msg ≠ "" ∧
      resolve_type (_extract_field_options f.ann).1 = .error msg := by
    rcases hbad with ⟨args, heq, hshape⟩ | ⟨args, heq, hlen⟩ | ⟨h0, args, heq⟩
    · refine ⟨"unsupported union type: expected exactly two arms with one being the null type",
        by decide, ?_⟩
      rw [heq]
      match args, hshape with
      | [], _ => rfl
      | [a], _ => rfl
      | [a, b], hshape =>
        show (if a.isNone then Except.ok b
              else if b.isNone then Except.ok a else Except.error _) = Except.error _
        have ha : a.isNone = false := by
          cases haa : a.isNone
          · rfl
          · exact ((hshape b).1 ((congrArg (fun x => [x, b])
              ((PyType.isNone_iff a).mp haa)))).elim
        have hb : b.isNone = false := by
          cases hbb : b.isNone
          · rfl
          · exact ((hshape a).2 ((congrArg (fun x => [a, x])
              ((PyType.isNone_iff b).mp hbb)))).elim
        rw [ha, hb]
        simp
      | a :: b :: c :: more, _ => rfl
    · refine ⟨"unsupported sequence type: expected exactly one type parameter",
        by decide, ?_⟩
      rw [heq]
      match args, hlen with
      | [], _ => rfl
      | [a], hlen => exact absurd rfl hlen
      | a :: b :: more, _ => rfl
    · refine ⟨"unsupported parameterized type", by decide, ?_⟩
      rw [heq]
      rfl
  obtain ⟨msg, hne, hmsg⟩ := hres
  refine ⟨msg, hne, hmsg, ?_⟩
  unfold _add_dataclass_arguments_ext translate_field_ext
  simp [hmsg]

/-- A field declaring the malformed union type `int | str`. -/
def exBadUnion : Field :=
  { name := "u", ann := .plain (.union [.int, .str]), default := .vMissing,
    factory := none }

theorem C2_malformed_type_fails_witness :
    resolve_type (_extract_field_options exBadUnion.ann).1 =
      .error "unsupported union type: expected exactly two arms with one being the null type" ∧
    _add_dataclass_arguments_ext [] [exBadUnion] =
      ([], some "unsupported union type: expected exactly two arms with one being the null type") := by
  obtain ⟨msg, hne, h1, h2⟩ :=
    C2_malformed_type_fails_before_registration [] exBadUnion []
      (Or.inl ⟨[.int, .str], rfl, fun a => ⟨by simp, by simp⟩⟩)
  have h0 : resolve_type (_extract_field_options exBadUnion.ann).1 =
      .error "unsupported union type: expected exactly two arms with one being the null type" := rfl
  have hm : Except.error (ε := String) (α := PyType) msg =
      .error "unsupported union type: expected exactly two arms with one being the null type" :=
    h1.symm.trans h0
  have hmsg : msg = "unsupported union type: expected exactly two arms with one being the null type" := by
    injection hm
  subst hmsg
  exact ⟨h0, h2⟩

/-! ## Lemmas about `add_subparser` -/

theorem contains_filter_ne_self (l : List String) (name : String) :
    (l.filter (fun n => ¬(n = name))).contains name = false := by
  induction l with
  | nil => rfl
  | cons x xs ih =>
    simp only [List.filter_cons]
    split
    · next hkeep =>
      have hx : ¬(x = name) := by simpa using hkeep
      have hx2 : ¬(name = x) := fun hh => hx hh.symm
      simp [List.contains_cons, hx, hx2, ih]
    · next => exact ih

theorem add_subparser_unknown (b : Builder) (name : String) (schema : SchemaSpec)
    (func : Option String) (h1 : b.hasSub = true)
    (h2 : b.namesLeft.contains name = false) :
    add_subparser b name schema func = .err ("Unknown subcommand: " ++ name) b := by
  unfold add_subparser
  rw [h1, h2]
  simp

/-- The parent state `add_subparser` leaves behind in the leaf-without-handler
error case. -/
theorem add_subparser_leaf_no_handler (b : Builder) (name : String) (d : DC)
    (h1 : b.hasSub = true) (h2 : b.namesLeft.contains name = true) :
    add_subparser b name (.dataclass d) none =
      .err "Leaf subparser requires a handler"
        { b with namesLeft := b.namesLeft.filter (fun n => ¬(n = name)),
                 children := b.children ++ [(name,
                   { rootCls := some d, hasSub := false, namesLeft := [],
                     args := _add_dataclass_arguments d.fields,
                     children := [], defaults := [] })] } := by
  unfold add_subparser
  rw [h1, h2]
  simp [_Parser_init]

/-- The parent state `add_subparser` leaves behind in the
branch-with-handler error case (non-empty permitted tuple). -/
theorem add_subparser_branch_with_handler (b : Builder) (name : String)
    (nms : List String) (h : String) (hne : nms ≠ [])
    (h1 : b.hasSub = true) (h2 : b.namesLeft.contains name = true) :
    add_subparser b name (.names nms) (some h) =
      .err "Handler can only be attached to a dataclass leaf"
        { b with namesLeft := b.namesLeft.filter (fun n => ¬(n = name)),
                 children := b.children ++ [(name,
                   { rootCls := none, hasSub := true, namesLeft := nms.eraseDups,
                     args := [], children := [], defaults := [] })] } := by
  unfold add_subparser
  rw [h1, h2]
  simp [_Parser_init, hne]

theorem add_subparser_leaf_ok (b : Builder) (name : String) (d : DC) (h : String)
    (h1 : b.hasSub = true) (h2 : b.namesLeft.contains name = true) :
    add_subparser b name (.dataclass d) (some h) =
      .ok { b with namesLeft := b.namesLeft.filter (fun n => ¬(n = name)),
                   children := b.children ++ [(name,
                     { rootCls := some d, hasSub := false, namesLeft := [],
                       args := _add_dataclass_arguments d.fields,
                       children := [],
                       defaults := [("_cls", .cls d), ("_handler", .fn h)] })] }
          { rootCls := some d, hasSub := false, namesLeft := [],
            args := _add_dataclass_arguments d.fields,
            children := [],
            defaults := [("_cls", .cls d), ("_handler", .fn h)] } := by
  unfold add_subparser
  rw [h1, h2]
  simp [_Parser_init]

/-- Dissection of a successful registration: the parent keeps `hasSub` and its
remaining names are the old ones with `name` removed. -/
theorem add_subparser_ok_inv (b : Builder) (name : String) (schema : SchemaSpec)
    (func : Option String) (parent child : Builder)
    (h : add_subparser b name schema func = .ok parent child) :
    parent.hasSub = true ∧
    parent.namesLeft = b.namesLeft.filter (fun n => ¬(n = name)) := by
  unfold add_subparser at h
  by_cases h1 : b.hasSub = true
  · rw [h1] at h
    simp only [not_true_eq_false, Bool.true_eq_false, reduceIte] at h
    by_cases h2 : b.namesLeft.contains name = true
    · rw [h2] at h
      simp only [not_true_eq_false, reduceIte] at h
      rcases hinit : _Parser_init schema with e | c
      · rw [hinit] at h
        cases h
      · rw [hinit] at h
        cases schema with
        | dataclass d =>
          cases func with
          | none => cases h
          | some hh =>
            cases h
            exact ⟨rfl, rfl⟩
        | names nms =>
          cases func with
          | none =>
            cases h
            exact ⟨rfl, rfl⟩
          | some hh => cases h
        | other =>
          cases func with
          | none =>
            cases h
            exact ⟨rfl, rfl⟩
          | some hh => cases h
    · rw [eq_false_of_ne_true h2] at h
      simp at h
  · rw [eq_false_of_ne_true h1] at h
    simp at h

/-! ## Claim theorems: sub-command registration -/

/-- C5: on a branch node, registering a name outside the remaining-permitted
set fails; a successful registration removes the name from the
remaining-permitted set, so a second registration of the same name always
fails. -/
theorem C5_permitted_names_consumed_once (b : Builder) (name : String) :
    (∀ schema func, b.hasSub = true → b.namesLeft.contains name = false →
      add_subparser b name schema func = .err ("Unknown subcommand: " ++ name) b) ∧
    (∀ schema func parent child,
      add_subparser b name schema func = .ok parent child →
      parent.namesLeft.contains name = false ∧
      ∀ schema2 func2, (add_subparser parent name schema2 func2).isOk = false) := by
  constructor
  · intro schema func h1 h2
    exact add_subparser_unknown b name schema func h1 h2
  · intro schema func parent child h
    obtain ⟨hsub, hleft⟩ := add_subparser_ok_inv b name schema func parent child h
    have hc : parent.namesLeft.contains name = false := by
      rw [hleft]
      exact contains_filter_ne_self _ _
    refine ⟨hc, ?_⟩
    intro schema2 func2
    rw [add_subparser_unknown parent name schema2 func2 hsub hc]
    rfl

/-- A two-field dataclass used by the registration witnesses. -/
def exRunDC : DC :=
  { clsName := "Run",
    fields := [{ name := "port", ann := .plain .int, default := .vMissing,
                 factory := none }] }

/-- A branch builder with permitted names `start`/`stop`, as built by
`_Parser((("start", "stop")))`. -/
def exBranch : Builder :=
  { rootCls := none, hasSub := true, namesLeft := ["start", "stop"],
    args := [], children := [], defaults := [] }

theorem C5_permitted_names_consumed_once_witness :
    (add_subparser exBranch "status" (.dataclass exRunDC) (some "h1")).isOk = false ∧
    (∀ parent child,
      add_subparser exBranch "start" (.dataclass exRunDC) (some "h1") = .ok parent child →
      (add_subparser parent "start" (.dataclass exRunDC) (some "h1")).isOk = false) := by
  constructor
  · rw [(C5_permitted_names_consumed_once exBranch "status").1 (.dataclass exRunDC)
      (some "h1") rfl rfl]
    rfl
  · intro parent child h
    exact ((C5_permitted_names_consumed_once exBranch "start").2 (.dataclass exRunDC)
      (some "h1") parent child h).2 (.dataclass exRunDC) (some "h1")

/-- C6: on a branch node with a still-permitted name, registering a dataclass
leaf without a handler fails, registering a permitted-name branch with a
handler fails, and a registration carrying a handler succeeds exactly when
the child schema is a dataclass leaf. -/
theorem C6_handler_exactly_on_leaves (b : Builder) (name : String)
    (h1 : b.hasSub = true) (h2 : b.namesLeft.contains name = true) :
    (∀ d, (add_subparser b name (.dataclass d) none).errMsg =
      some "Leaf subparser requires a handler") ∧
    (∀ nms h, nms ≠ [] → (add_subparser b name (.names nms) (some h)).errMsg =
      some "Handler can only be attached to a dataclass leaf") ∧
    (∀ schema h, (add_subparser b name schema (some h)).isOk = true ↔
      ∃ d, schema = .dataclass d) := by
  refine ⟨?_, ?_, ?_⟩
  · intro d
    rw [add_subparser_leaf_no_handler b name d h1 h2]
    rfl
  · intro nms h hne
    rw [add_subparser_branch_with_handler b name nms h hne h1 h2]
    rfl
  · intro schema h
    cases schema with
    | dataclass d =>
      rw [add_subparser_leaf_ok b name d h h1 h2]
      constructor
      · intro _
        exact ⟨d, rfl⟩
      · intro _
        rfl
    | names nms =>
      cases nms with
      | nil =>
        constructor
        · intro hok
          unfold add_subparser at hok
          rw [h1, h2] at hok
          simp [_Parser_init, RegOutcome.isOk] at hok
        · rintro ⟨d, hd⟩
          cases hd
      | cons x xs =>
        rw [add_subparser_branch_with_handler b name (x :: xs) h (by simp) h1 h2]
        constructor
        · intro hok
          cases hok
        · rintro ⟨d, hd⟩
          cases hd
    | other =>
      constructor
      · intro hok
        unfold add_subparser at hok
        rw [h1, h2] at hok
        simp [_Parser_init, RegOutcome.isOk] at hok
      · rintro ⟨d, hd⟩
        cases hd

theorem C6_handler_exactly_on_leaves_witness :
    (add_subparser exBranch "start" (.dataclass exRunDC) none).errMsg =
      some "Leaf subparser requires a handler" ∧
    (add_subparser exBranch "start" (.names ["a", "b"]) (some "h1")).errMsg =
      some "Handler can only be attached to a dataclass leaf" ∧
    (add_subparser exBranch "start" (.dataclass exRunDC) (some "h1")).isOk = true := by
  have hthm := C6_handler_exactly_on_leaves exBranch "start" rfl rfl
  refine ⟨hthm.1 exRunDC, hthm.2.1 ["a", "b"] "h1" (by simp), ?_⟩
  exact (hthm.2.2 (.dataclass exRunDC) "h1").mpr ⟨exRunDC, rfl⟩

/-- C10: when registration fails because a dataclass leaf was given no
handler (or a branch was given a handler), the permitted name has already
been removed and a child parser for it has already been attached, so the
name can never be registered again on that node. -/
theorem C10_failed_registration_not_rolled_back (b : Builder) (name : String)
    (h1 : b.hasSub = true) (h2 : b.namesLeft.contains name = true) :
    (∀ d,
      (add_subparser b name (.dataclass d) none).errMsg =
        some "Leaf subparser requires a handler" ∧
      ((add_subparser b name (.dataclass d) none).parentAfter).namesLeft.contains name
        = false ∧
      (∃ c, (name, c) ∈ ((add_subparser b name (.dataclass d) none).parentAfter).children) ∧
      (∀ schema2 func2,
        (add_subparser ((add_subparser b name (.dataclass d) none).parentAfter)
          name schema2 func2).isOk = false)) ∧
    (∀ nms h, nms ≠ [] →
      (add_subparser b name (.names nms) (some h)).errMsg =
        some "Handler can only be attached to a dataclass leaf" ∧
      ((add_subparser b name (.names nms) (some h)).parentAfter).namesLeft.contains name
        = false ∧
      (∃ c, (name, c) ∈ ((add_subparser b name (.names nms) (some h)).parentAfter).children) ∧
      (∀ schema2 func2,
        (add_subparser ((add_subparser b name (.names nms) (some h)).parentAfter)
          name schema2 func2).isOk = false)) := by
  constructor
  · intro d
    have hP := add_subparser_leaf_no_handler b name d h1 h2
    refine ⟨by rw [hP]; rfl, ?_, ?_, ?_⟩
    · rw [hP]
      exact contains_filter_ne_self _ _
    · refine ⟨{ rootCls := some d, hasSub := false, namesLeft := [],
                args := _add_dataclass_arguments d.fields, children := [],
                defaults := [] }, ?_⟩
      rw [hP]
      simp [RegOutcome.parentAfter]
    · intro schema2 func2
      have h4 := add_subparser_unknown
        { b with namesLeft := b.namesLeft.filter (fun n => ¬(n = name)),
                 children := b.children ++ [(name,
                   { rootCls := some d, hasSub := false, namesLeft := [],
                     args := _add_dataclass_arguments d.fields,
                     children := [], defaults := [] })] }
        name schema2 func2 h1 (contains_filter_ne_self _ _)
      rw [hP]
      simp only [RegOutcome.parentAfter]
      rw [h4]
      rfl
  · intro nms h hne
    have hP := add_subparser_branch_with_handler b name nms h hne h1 h2
    refine ⟨by rw [hP]; rfl, ?_, ?_, ?_⟩
    · rw [hP]
      exact contains_filter_ne_self _ _
    · refine ⟨{ rootCls := none, hasSub := true, namesLeft := nms.eraseDups,
                args := [], children := [], defaults := [] }, ?_⟩
      rw [hP]
      simp [RegOutcome.parentAfter]
    · intro schema2 func2
      have h4 := add_subparser_unknown
        { b with namesLeft := b.namesLeft.filter (fun n => ¬(n = name)),
                 children := b.children ++ [(name,
                   { rootCls := none, hasSub := true, namesLeft := nms.eraseDups,
                     args := [], children := [], defaults := [] })] }
        name schema2 func2 h1 (contains_filter_ne_self _ _)
      rw [hP]
      simp only [RegOutcome.parentAfter]
      rw [h4]
      rfl

theorem C10_failed_registration_not_rolled_back_witness :
    (add_subparser exBranch "start" (.dataclass exRunDC) none).errMsg =
      some "Leaf subparser requires a handler" ∧
    ((add_subparser exBranch "start" (.dataclass exRunDC) none).parentAfter).namesLeft.contains
      "start" = false ∧
    (∃ c, ("start", c) ∈
      ((add_subparser exBranch "start" (.dataclass exRunDC) none).parentAfter).children) ∧
    (add_subparser ((add_subparser exBranch "start" (.dataclass exRunDC) none).parentAfter)
      "start" (.dataclass exRunDC) (some "h1")).isOk = false := by
  have hthm := (C10_failed_registration_not_rolled_back exBranch "start" rfl rfl).1 exRunDC
  exact ⟨hthm.1, hthm.2.1, hthm.2.2.1, hthm.2.2.2 (.dataclass exRunDC) (some "h1")⟩

/-! ## Lemmas about namespaces and `parse_args` -/

theorem nsGet_nsDel_self (ns : Namespace) (k : String) :
    nsGet (nsDel ns k) k = none := by
  unfold nsDel
  induction ns with
  | nil => rfl
  | cons p rest ih =>
    simp only [List.filter_cons]
    split
    · next hkeep =>
      have hk : ¬(p.1 = k) := by simpa using hkeep
      simpa [nsGet, hk] using ih
    · next => exact ih

theorem nsHas_nsDel_self (ns : Namespace) (k : String) :
    nsHas (nsDel ns k) k = false := by
  simp [nsHas, nsGet_nsDel_self]

theorem nsGet_nsDel_ne (ns : Namespace) (k k2 : String) (h : k ≠ k2) :
    nsGet (nsDel ns k2) k = nsGet ns k := by
  unfold nsDel
  induction ns with
  | nil => rfl
  | cons p rest ih =>
    simp only [List.filter_cons]
    split
    · next =>
      simp only [nsGet]
      split
      · rfl
      · exact ih
    · next hdrop =>
      have hp : p.1 = k2 := by simpa using hdrop
      have hne : ¬(p.1 = k) := fun hh => h (hh ▸ hp)
      simp only [nsGet, if_neg hne]
      exact ih

/-! ## Claim theorems: `parse_args` post-processing -/

/-- C8: on a root-leaf builder (no sub-command mechanism) whose parse result
carries no handler marker, `parse_args` reconstructs an instance of the root
schema (one value per field) and returns it paired with no handler. -/
theorem C8_root_leaf_reconstruct (b : Builder) (ns : Namespace) (d : DC)
    (inst : List (String × NsVal))
    (hsub : b.hasSub = false) (hroot : b.rootCls = some d)
    (hh : nsHas ns "_handler" = false)
    (hrec : _namespace_to_dataclass ns d = some inst) :
    parse_args_post b ns = .result inst none := by
  unfold parse_args_post
  rw [if_pos ⟨by simp [hh], by simp [hsub], by simp [hroot]⟩]
  rw [hroot]
  show (match _namespace_to_dataclass ns d with
        | some inst => ParseRes.result inst none
        | none => ParseRes.attrError) = ParseRes.result inst none
  rw [hrec]

/-- A one-field schema `Cfg(level: int)` used by the parse witnesses. -/
def exCfgDC : DC :=
  { clsName := "Cfg",
    fields := [{ name := "level", ann := .plain .int, default := .vMissing,
                 factory := none }] }

/-- A root-leaf builder over `exCfgDC`. -/
def exRootLeaf : Builder :=
  { rootCls := some exCfgDC, hasSub := false, namesLeft := [],
    args := _add_dataclass_arguments exCfgDC.fields, children := [], defaults := [] }

theorem C8_root_leaf_reconstruct_witness :
    parse_args_post exRootLeaf [("level", .py (.vInt 3))] =
      .result [("level", .py (.vInt 3))] none :=
  C8_root_leaf_reconstruct exRootLeaf [("level", .py (.vInt 3))] exCfgDC
    [("level", .py (.vInt 3))] rfl rfl rfl rfl

/-- C9: when the parsed namespace carries the leaf markers, `parse_args`
removes `_cls`, `_handler` and `_cmd` from the namespace before
reconstruction — so the instance is built only from the scrubbed, marker-free
value set — and pairs the result with the handler resolved from the
marker. -/
theorem C9_markers_scrubbed_before_reconstruction (b : Builder) (ns : Namespace)
    (d : DC) (h : String) (inst : List (String × NsVal))
    (hcls : nsGet ns "_cls" = some (.cls d))
    (hhan : nsGet ns "_handler" = some (.fn h))
    (hrec : _namespace_to_dataclass (nsScrub ns) d = some inst) :
    parse_args_post b ns = .result inst (some h) ∧
    nsHas (nsScrub ns) "_cls" = false ∧
    nsHas (nsScrub ns) "_handler" = false ∧
    nsHas (nsScrub ns) "_cmd" = false := by
  refine ⟨?_, ?_, ?_, ?_⟩
  · unfold parse_args_post
    rw [if_neg ?hneg]
    case hneg =>
      rintro ⟨ha, _, _⟩
      rw [show nsHas ns "_handler" = true by simp [nsHas, hhan]] at ha
      exact ha rfl
    rw [if_neg ?hneg2]
    case hneg2 =>
      intro ha
      rw [show nsHas ns "_cls" = true by simp [nsHas, hcls]] at ha
      exact ha rfl
    rw [hcls, hhan]
    show (match _namespace_to_dataclass (nsScrub ns) d with
          | some inst => ParseRes.result inst (some h)
          | none => ParseRes.attrError) = ParseRes.result inst (some h)
    rw [hrec]
  · unfold nsScrub
    simp only [nsHas]
    rw [nsGet_nsDel_ne _ "_cls" "_cmd" (by decide),
        nsGet_nsDel_ne _ "_cls" "_handler" (by decide),
        nsGet_nsDel_self]
    rfl
  · unfold nsScrub
    simp only [nsHas]
    rw [nsGet_nsDel_ne _ "_handler" "_cmd" (by decide),
        nsGet_nsDel_self]
    rfl
  · exact nsHas_nsDel_self _ _

/-- A namespace as produced by a matched leaf sub-command `run` of schema
`exCfgDC` with handler `h-run`. -/
def exLeafNs : Namespace :=
  [("_cmd", .py (.vStr "run")), ("level", .py (.vInt 7)),
   ("_cls", .cls exCfgDC), ("_handler", .fn "h-run")]

theorem C9_markers_scrubbed_before_reconstruction_witness :
    parse_args_post exBranch exLeafNs = .result [("level", .py (.vInt 7))] (some "h-run") ∧
    nsHas (nsScrub exLeafNs) "_cls" = false :=
  ⟨(C9_markers_scrubbed_before_reconstruction exBranch exLeafNs exCfgDC "h-run"
      [("level", .py (.vInt 7))] rfl rfl rfl).1,
   (C9_markers_scrubbed_before_reconstruction exBranch exLeafNs exCfgDC "h-run"
      [("level", .py (.vInt 7))] rfl rfl rfl).2.1⟩

/-! ## Decimal tokens round-trip -/

theorem digitChar_spec (d : Nat) (h : d < 10) :
    (digitChar d).isDigit = true ∧ (digitChar d).toNat - 48 = d := by
  interval_cases d <;> exact ⟨by decide, by decide⟩

theorem isDigit_ne_dash (c : Char) (h : c.isDigit = true) : c ≠ '-' := by
  intro hc
  subst hc
  exact absurd h (by decide)

theorem parseDigits_append (acc : Nat) (l : List Char) (c : Char) :
    parseDigits acc (l ++ [c]) =
      match parseDigits acc l with
      | some m => if c.isDigit then some (10 * m + (c.toNat - 48)) else none
      | none => none := by
  induction l generalizing acc with
  | nil => rfl
  | cons x xs ih =>
    by_cases hx : x.isDigit
    · simp only [List.cons_append, parseDigits, hx, if_true]
      exact ih _
    · simp only [List.cons_append, parseDigits, hx, Bool.false_eq_true, if_false]

theorem parseDigits_natDigitsRev (n : Nat) : ∀ acc : Nat,
    parseDigits acc (natDigitsRev n).reverse =
      some (acc * 10 ^ (natDigitsRev n).length + n) := by
  induction n using Nat.strong_induction_on with
  | _ n ih =>
    intro acc
    match n with
    | 0 => simp [natDigitsRev, parseDigits]
    | m + 1 =>
      rw [natDigitsRev, List.reverse_cons, parseDigits_append,
        ih ((m + 1) / 10) (Nat.div_lt_self (Nat.succ_pos m) (by decide)) acc]
      have hd : (m + 1) % 10 < 10 := Nat.mod_lt _ (by decide)
      obtain ⟨h1, h2⟩ := digitChar_spec _ hd
      rw [h1]
      simp only [if_true, List.length_cons]
      rw [h2]
      congr 1
      have hqm : 10 * ((m + 1) / 10) + (m + 1) % 10 = m + 1 := Nat.div_add_mod (m + 1) 10
      calc 10 * (acc * 10 ^ (natDigitsRev ((m + 1) / 10)).length + (m + 1) / 10)
            + (m + 1) % 10
          = acc * (10 ^ (natDigitsRev ((m + 1) / 10)).length * 10)
            + (10 * ((m + 1) / 10) + (m + 1) % 10) := by ring
        _ = acc * 10 ^ ((natDigitsRev ((m + 1) / 10)).length + 1) + (m + 1) := by
            rw [hqm, pow_succ]

theorem parseDigits_natToken (n : Nat) : parseDigits 0 (natToken n) = some n := by
  unfold natToken
  by_cases h : n = 0
  · rw [if_pos h, h]
    rfl
  · rw [if_neg h, parseDigits_natDigitsRev n 0]
    simp

theorem natToken_ne_nil (n : Nat) : natToken n ≠ [] := by
  unfold natToken
  split
  · simp
  · next h =>
    match n, h with
    | m + 1, _ =>
      rw [natDigitsRev]
      simp

theorem natDigitsRev_all_digit (n : Nat) :
    ∀ c ∈ natDigitsRev n, c.isDigit = true := by
  induction n using Nat.strong_induction_on with
  | _ n ih =>
    match n with
    | 0 =>
      intro c hc
      rw [natDigitsRev] at hc
      exact absurd hc (List.not_mem_nil c)
    | m + 1 =>
      rw [natDigitsRev]
      intro c hc
      rcases List.mem_cons.mp hc with h | h
      · subst h
        exact (digitChar_spec _ (Nat.mod_lt _ (by decide))).1
      · exact ih _ (Nat.div_lt_self (Nat.succ_pos m) (by decide)) c h

theorem natToken_all_digit (n : Nat) : ∀ c ∈ natToken n, c.isDigit = true := by
  unfold natToken
  split
  · intro c hc
    rw [List.mem_singleton] at hc
    subst hc
    decide
  · intro c hc
    exact natDigitsRev_all_digit n c (List.mem_reverse.mp hc)

theorem parsePyInt_intToken (i : Int) : parsePyInt ⟨intTokenChars i⟩ = some i := by
  cases i with
  | ofNat m =>
    show parsePyInt ⟨natToken m⟩ = some (Int.ofNat m)
    cases hT : natToken m with
    | nil => exact absurd hT (natToken_ne_nil m)
    | cons c cs =>
      have hc : ¬(c = '-') :=
        isDigit_ne_dash c (natToken_all_digit m c (by rw [hT]; exact List.mem_cons_self c cs))
      show (if c = '-' then
              (if cs.isEmpty then none
               else (parseDigits 0 cs).map (fun n => -(Int.ofNat n)))
            else (parseDigits 0 (c :: cs)).map Int.ofNat) = some (Int.ofNat m)
      rw [if_neg hc, ← hT, parseDigits_natToken m]
      rfl
  | negSucc m =>
    show parsePyInt ⟨'-' :: natToken (m + 1)⟩ = some (Int.negSucc m)
    cases hT : natToken (m + 1) with
    | nil => exact absurd hT (natToken_ne_nil (m + 1))
    | cons c cs =>
      show (if ('-' : Char) = '-' then
              (if (c :: cs).isEmpty then none
               else (parseDigits 0 (c :: cs)).map (fun n => -(Int.ofNat n)))
            else (parseDigits 0 ('-' :: c :: cs)).map Int.ofNat) = some (Int.negSucc m)
      rw [if_pos rfl, List.isEmpty_cons]
      show (parseDigits 0 (c :: cs)).map (fun n => -(Int.ofNat n)) = some (Int.negSucc m)
      rw [← hT, parseDigits_natToken (m + 1)]
      show some (-(Int.ofNat (m + 1))) = some (Int.negSucc m)
      rw [Int.negSucc_eq]
      simp

/-! ## Token classification -/

theorem isOptionTok_of_head_not_dash (s : String) (h : headIsDash s.data = false) :
    isOptionTok s = false := by
  unfold isOptionTok
  cases hd : s.data with
  | nil => rfl
  | cons c cs =>
    rw [hd] at h
    have hc : ¬(c = '-') := by simpa [headIsDash] using h
    show (if c = '-' then !isNegNumberTok s else false) = false
    rw [if_neg hc]

theorem headIsDash_natToken (m : Nat) : headIsDash (natToken m) = false := by
  cases hT : natToken m with
  | nil => exact absurd hT (natToken_ne_nil m)
  | cons c cs =>
    have hdig : c.isDigit = true :=
      natToken_all_digit m c (by rw [hT]; exact List.mem_cons_self c cs)
    simp [headIsDash, isDigit_ne_dash c hdig]

theorem isNegNumberTok_negIntToken (m : Nat) :
    isNegNumberTok ⟨'-' :: natToken (m + 1)⟩ = true := by
  cases hT : natToken (m + 1) with
  | nil => exact absurd hT (natToken_ne_nil (m + 1))
  | cons c2 cs2 =>
    unfold isNegNumberTok
    show (if ('-' : Char) = '-' then ((c2 :: cs2).all Char.isDigit) else false) = true
    rw [if_pos rfl]
    rw [List.all_eq_true.mpr ?hall]
    case hall =>
      intro c hc
      exact natToken_all_digit (m + 1) c (by rw [hT]; exact hc)

theorem isOptionTok_negIntToken (m : Nat) :
    isOptionTok ⟨'-' :: natToken (m + 1)⟩ = false := by
  have hneg := isNegNumberTok_negIntToken m
  unfold isOptionTok
  show (if ('-' : Char) = '-' then !isNegNumberTok ⟨'-' :: natToken (m + 1)⟩ else false)
      = false
  rw [if_pos rfl, hneg]
  rfl

theorem isOptionTok_valToken_int (i : Int) :
    isOptionTok (valToken (.vInt i)) = false := by
  cases i with
  | ofNat m =>
    exact isOptionTok_of_head_not_dash ⟨natToken m⟩ (headIsDash_natToken m)
  | negSucc m => exact isOptionTok_negIntToken m

theorem isOptionTok_dashdash (s : String) (c : Char) (rest : List Char)
    (h : s.data = '-' :: '-' :: c :: rest) : isOptionTok s = true := by
  have hneg : isNegNumberTok s = false := by
    unfold isNegNumberTok
    rw [h]
    show (if ('-' : Char) = '-' then (('-' :: c :: rest).all Char.isDigit) else false) = false
    rw [if_pos rfl, List.all_cons]
    rfl
  unfold isOptionTok
  rw [h]
  show (if ('-' : Char) = '-' then !isNegNumberTok s else false) = true
  rw [if_pos rfl, hneg]
  rfl

/-! ## The supported schema fragment for the round-trip property

The round-trip statement quantifies over schemas in the fragment the module
is designed for: field types `int`, `str`, `bool`; annotations carrying at
most one explicit long flag and no extra keyword options; identifier-like
field names.  Boolean fields must declare a boolean default or none at all
(and no factory) — a toggle flag cannot express any other value. -/

def tOK (t : PyType) : Prop := t = .int ∨ t = .str ∨ t = .bool

def flagOK (fl : String) : Prop := ∃ c rest, fl.data = '-' :: '-' :: c :: rest

def fieldOK (f : Field) : Prop :=
  tOK (_extract_field_options f.ann).1 ∧
  (_extract_field_options f.ann).2.2 = [] ∧
  ((_extract_field_options f.ann).2.1 = [] ∨
    ∃ fl, (_extract_field_options f.ann).2.1 = [fl] ∧ flagOK fl) ∧
  f.name ≠ "" ∧
  (∀ c ∈ f.name.data, c ≠ '-') ∧
  ((_extract_field_options f.ann).1 = .bool →
    (∃ bb, f.default = .vBool bb) ∨ (f.default = .vMissing ∧ f.factory = none))

def valOK (f : Field) (v : PyVal) : Prop :=
  ((_extract_field_options f.ann).1 = .int → ∃ n, v = .vInt n) ∧
  ((_extract_field_options f.ann).1 = .str →
    ∃ s, v = .vStr s ∧ headIsDash s.data = false) ∧
  ((_extract_field_options f.ann).1 = .bool → ∃ bb, v = .vBool bb)

/-- Proof-side shorthand: is `f` registered positionally? -/
def isPosF (f : Field) : Bool := registeredAsPositional (translateField f)

/-- Proof-side shorthand: is `f`'s declared base type `bool`? -/
def isBoolF (f : Field) : Bool := ((_extract_field_options f.ann).1).isBool

/-- The single flag string of `f`'s registered argument. -/
def flagHead (f : Field) : String := (translateField f).flags.headD ""

/-- The value a boolean toggle stores when its flag is passed. -/
def storedVal (f : Field) : PyVal :=
  .vBool (if f.default = .vBool true then false else true)

def schemaOK (fields : List Field) : Prop :=
  (∀ f ∈ fields, fieldOK f) ∧
  (fields.map Field.name).Nodup ∧
  ((fields.filter (fun g => !isPosF g)).map flagHead).Nodup

def valsOK (fields : List Field) (vals : List PyVal) : Prop :=
  fields.length = vals.length ∧ ∀ p ∈ fields.zip vals, valOK p.1 p.2

/-! ## Shape of the translated argument in the fragment -/

theorem kw_nonbool (name : String) (t : PyType) (flags0 : List String)
    (dflt : PyVal) (fac : Option PyVal) (ht : t.isBool = false) :
    kwGet (translateCore name t flags0 [] dflt fac).kwargs "action" = none ∧
    kwGet (translateCore name t flags0 [] dflt fac).kwargs "type" = some (.typ t) := by
  rw [translateCore_kwargs]
  unfold kwStep1
  simp only [ht, Bool.false_eq_true, if_false]
  constructor <;> (split <;> rfl)

theorem kw_bool (name : String) (t : PyType) (flags0 : List String)
    (dflt : PyVal) (fac : Option PyVal) (ht : t.isBool = true) :
    kwGet (translateCore name t flags0 [] dflt fac).kwargs "action" =
      some (.str (if dflt = .vBool true then "store_false" else "store_true")) ∧
    kwGet (translateCore name t flags0 [] dflt fac).kwargs "default" =
      (if dflt ≠ .vMissing ∨ fac.isSome then some (.val dflt) else none) := by
  rw [translateCore_kwargs]
  unfold kwStep1
  simp only [ht, if_true]
  constructor <;> (split <;> rfl)

theorem regPos_of_flags_dashdash (s : ArgSpec) (fl : String) (r : List String)
    (hF : s.flags = fl :: r) (c : Char) (rest : List Char)
    (h : fl.data = '-' :: '-' :: c :: rest) :
    registeredAsPositional s = false := by
  unfold registeredAsPositional
  rw [hF]
  show (!headIsDash fl.data) = false
  rw [h]
  rfl

theorem regPos_of_flags_name (s : ArgSpec) (n : String) (hF : s.flags = [n])
    (hname : ∀ c ∈ n.data, c ≠ '-') :
    registeredAsPositional s = true := by
  unfold registeredAsPositional
  rw [hF]
  show (!headIsDash n.data) = true
  rw [headIsDash_false _ hname]
  rfl

theorem specDest_of_dest_some (s : ArgSpec) (n : String) (hD : s.dest = some n) :
    specDest s = n := by
  unfold specDest
  rw [hD]

theorem map_dashToUnd_undToDash (l : List Char) (h : ∀ c ∈ l, c ≠ '-') :
    (l.map undToDash).map dashToUnd = l := by
  rw [List.map_map]
  have hpt : ∀ c ∈ l, (dashToUnd ∘ undToDash) c = c :=
    fun c hc => dashToUnd_undToDash c (h c hc)
  rw [List.map_congr_left hpt]
  simp

theorem specDest_of_flags_name (s : ArgSpec) (n : String) (hD : s.dest = none)
    (hF : s.flags = [n]) (hname : ∀ c ∈ n.data, c ≠ '-') : specDest s = n := by
  unfold specDest
  rw [hD, hF]
  show (if headIsDash n.data then (⟨(stripDashes n.data).map dashToUnd⟩ : String) else n) = n
  rw [headIsDash_false _ hname]
  simp

theorem specDest_of_flags_synth (s : ArgSpec) (n : String) (hD : s.dest = none)
    (hF : s.flags = [synthFlag n]) (hname : ∀ c ∈ n.data, c ≠ '-') :
    specDest s = n := by
  unfold specDest
  rw [hD, hF]
  show (⟨(n.data.map undToDash).map dashToUnd⟩ : String) = n
  rw [map_dashToUnd_undToDash _ hname]

theorem synthFlag_data_shape (n : String) (hne : n ≠ "") :
    ∃ c rest, (synthFlag n).data = '-' :: '-' :: c :: rest := by
  obtain ⟨dataL⟩ := n
  cases dataL with
  | nil => exact absurd rfl hne
  | cons c cs =>
    exact ⟨undToDash c, cs.map undToDash, rfl⟩

theorem tOK_not_bool (t : PyType) (htOK : tOK t) (ht : ¬(t = .bool)) :
    t.isBool = false := by
  rcases htOK with h | h | h
  · rw [h]; rfl
  · rw [h]; rfl
  · exact absurd h ht

theorem isBool_iff (t : PyType) : t.isBool = true ↔ t = .bool := by
  cases t <;> simp [PyType.isBool]

/-- Full characterization of the registered argument for a well-formed
field. -/
theorem translateField_shape (f : Field) (hf : fieldOK f) :
    (translateField f).flags = [flagHead f] ∧
    specDest (translateField f) = f.name ∧
    (isPosF f = true → isBoolF f = false ∧ flagHead f = f.name) ∧
    (isPosF f = false → ∃ c rest, (flagHead f).data = '-' :: '-' :: c :: rest) ∧
    (isBoolF f = false →
      kwGet (translateField f).kwargs "action" = none ∧
      kwGet (translateField f).kwargs "type" =
        some (.typ (_extract_field_options f.ann).1)) ∧
    (isBoolF f = true →
      isPosF f = false ∧
      kwGet (translateField f).kwargs "action" =
        some (.str (if f.default = .vBool true then "store_false" else "store_true")) ∧
      kwGet (translateField f).kwargs "default" =
        (if f.default ≠ .vMissing ∨ f.factory.isSome then some (.val f.default)
         else none)) := by
  obtain ⟨htOK, hkw, hflags, hne, hnm, hbdef⟩ := hf
  unfold isPosF isBoolF flagHead
  rw [translateField_eq f]
  rcases hE : _extract_field_options f.ann with ⟨t, flags0, kw0⟩
  rw [hE] at htOK hkw hflags
  dsimp only at htOK hkw hflags ⊢
  subst hkw
  rcases hflags with hfl | ⟨fl, hfl, c0, rest0, hflc⟩
  · subst hfl
    cases htb : t.isBool with
    | true =>
      have hF : (translateCore f.name t [] [] f.default f.factory).flags =
          [synthFlag f.name] := by
        rw [translateCore_flags, htb]
        rfl
      have hD : (translateCore f.name t [] [] f.default f.factory).dest = none := by
        rw [translateCore_dest]
        rfl
      have hKW := kw_bool f.name t [] f.default f.factory htb
      have hreg : registeredAsPositional
          (translateCore f.name t [] [] f.default f.factory) = false := by
        obtain ⟨cs, rests, hsyn⟩ := synthFlag_data_shape f.name hne
        exact regPos_of_flags_dashdash _ _ _ hF cs rests hsyn
      refine ⟨by rw [hF]; rfl, specDest_of_flags_synth _ _ hD hF hnm, ?_, ?_, ?_, ?_⟩
      · intro hpos
        rw [hreg] at hpos
        exact absurd hpos (by simp)
      · intro _
        have : (translateCore f.name t [] [] f.default f.factory).flags.headD "" =
            synthFlag f.name := by rw [hF]; rfl
        rw [this]
        exact synthFlag_data_shape f.name hne
      · intro hnb
        exact absurd hnb (by simp)
      · intro _
        exact ⟨hreg, hKW.1, hKW.2⟩
    | false =>
      have hF : (translateCore f.name t [] [] f.default f.factory).flags =
          [f.name] := by
        rw [translateCore_flags, htb]
        rfl
      have hD : (translateCore f.name t [] [] f.default f.factory).dest = none := by
        rw [translateCore_dest]
        rfl
      have hKW := kw_nonbool f.name t [] f.default f.factory htb
      have hreg : registeredAsPositional
          (translateCore f.name t [] [] f.default f.factory) = true :=
        regPos_of_flags_name _ _ hF hnm
      refine ⟨by rw [hF]; rfl, specDest_of_flags_name _ _ hD hF hnm, ?_, ?_, ?_, ?_⟩
      · intro _
        exact ⟨rfl, by rw [hF]; rfl⟩
      · intro hnp
        rw [hreg] at hnp
        exact absurd hnp (by simp)
      · intro _
        exact hKW
      · intro hbt
        exact absurd hbt (by simp)
  · subst hfl
    have hF : (translateCore f.name t [fl] [] f.default f.factory).flags = [fl] := by
      rw [translateCore_flags]
      rfl
    have hD : (translateCore f.name t [fl] [] f.default f.factory).dest =
        some f.name := by
      rw [translateCore_dest]
      rfl
    have hreg : registeredAsPositional
        (translateCore f.name t [fl] [] f.default f.factory) = false :=
      regPos_of_flags_dashdash _ _ _ hF c0 rest0 hflc
    refine ⟨by rw [hF]; rfl, specDest_of_dest_some _ _ hD, ?_, ?_, ?_, ?_⟩
    · intro hpos
      rw [hreg] at hpos
      exact absurd hpos (by simp)
    · intro _
      have : (translateCore f.name t [fl] [] f.default f.factory).flags.headD "" = fl := by
        rw [hF]
        rfl
      rw [this]
      exact ⟨c0, rest0, hflc⟩
    · intro hnb
      exact kw_nonbool f.name t [fl] f.default f.factory hnb
    · intro hbt
      have hKW := kw_bool f.name t [fl] f.default f.factory hbt
      exact ⟨hreg, hKW.1, hKW.2⟩

/-! ## Contributions of one field/value pair to the parse -/

/-- The optional-argument assignment a field/value pair produces. -/
def optContrib (f : Field) (v : PyVal) : List (String × PyVal) :=
  if isPosF f then []
  else if isBoolF f then (if v = storedVal f then [(f.name, v)] else [])
  else [(f.name, v)]

/-- The positional token a field/value pair produces. -/
def posContrib (f : Field) (v : PyVal) : List String :=
  if isPosF f then [valToken v] else []

/-- The positional assignment a field/value pair produces. -/
def posEntry (f : Field) (v : PyVal) : List (String × PyVal) :=
  if isPosF f then [(f.name, v)] else []

def optAsgOf (pv : List (Field × PyVal)) : List (String × PyVal) :=
  pv.foldr (fun p acc => optContrib p.1 p.2 ++ acc) []

def posToksOf (pv : List (Field × PyVal)) : List String :=
  pv.foldr (fun p acc => posContrib p.1 p.2 ++ acc) []

def posAsgOf (pv : List (Field × PyVal)) : List (String × PyVal) :=
  pv.foldr (fun p acc => posEntry p.1 p.2 ++ acc) []

theorem mem_foldr_append {α β : Type} (g : α → List β) (l : List α) (x : β) :
    (x ∈ l.foldr (fun p acc => g p ++ acc) []) ↔ ∃ p, p ∈ l ∧ x ∈ g p := by
  induction l with
  | nil => simp
  | cons a as ih =>
    simp only [List.foldr_cons, List.mem_append, ih, List.mem_cons]
    constructor
    · rintro (hx | ⟨p, hp, hxp⟩)
      · exact ⟨a, Or.inl rfl, hx⟩
      · exact ⟨p, Or.inr hp, hxp⟩
    · rintro ⟨p, hp | hp, hxp⟩
      · subst hp
        exact Or.inl hxp
      · exact Or.inr ⟨p, hp, hxp⟩

/-! ## Last-assignment lookup -/

theorem lastAssign_eq_none (l : List (String × PyVal)) (k : String)
    (h : ∀ w, ¬((k, w) ∈ l)) : lastAssign l k = none := by
  induction l with
  | nil => rfl
  | cons p rest ih =>
    simp only [lastAssign]
    rw [ih (fun w hw => h w (List.mem_cons_of_mem p hw))]
    have hk : ¬(p.1 = k) := by
      intro hh
      apply h p.2
      have hp : p = (k, p.2) := by rw [← hh]
      rw [← hp]
      exact List.mem_cons_self p rest
    rw [if_neg hk]

theorem lastAssign_eq_some (l : List (String × PyVal)) (k : String) (v : PyVal)
    (hmem : (k, v) ∈ l) (huniq : ∀ w, (k, w) ∈ l → w = v) :
    lastAssign l k = some v := by
  induction l with
  | nil => cases hmem
  | cons p rest ih =>
    simp only [lastAssign]
    by_cases hr : ∃ w, (k, w) ∈ rest
    · obtain ⟨w, hw⟩ := hr
      have hwv : w = v := huniq w (List.mem_cons_of_mem p hw)
      subst hwv
      rw [ih hw (fun u hu => huniq u (List.mem_cons_of_mem p hu))]
    · have hnone : lastAssign rest k = none :=
        lastAssign_eq_none rest k (fun w hw => hr ⟨w, hw⟩)
      rw [hnone]
      rcases List.mem_cons.mp hmem with hp | hp
      · rw [← hp]
        show (if k = k then some v else none) = some v
        rw [if_pos rfl]
      · exact absurd ⟨v, hp⟩ hr

/-! ## Flag lookup among the registered arguments -/

theorem findSpecByFlag_of_mem (fields : List Field)
    (hWF : ∀ g ∈ fields, fieldOK g)
    (hfl : ((fields.filter (fun g => !isPosF g)).map flagHead).Nodup)
    (f : Field) (hf : f ∈ fields) (hnp : isPosF f = false) :
    findSpecByFlag (fields.map translateField) (flagHead f) =
      some (translateField f) := by
  induction fields with
  | nil => cases hf
  | cons g gs ih =>
    have hgOK : fieldOK g := hWF g (List.mem_cons_self g gs)
    have hWFgs : ∀ x ∈ gs, fieldOK x := fun x hx => hWF x (List.mem_cons_of_mem g hx)
    cases hgp : isPosF g with
    | true =>
      -- g is positional: its spec never matches, and the flag list is untouched
      have hfgs : f ∈ gs := by
        rcases List.mem_cons.mp hf with hfg | hfg
        · subst hfg
          rw [hgp] at hnp
          cases hnp
        · exact hfg
      have hflgs : ((gs.filter (fun x => !isPosF x)).map flagHead).Nodup := by
        have : (g :: gs).filter (fun x => !isPosF x) = gs.filter (fun x => !isPosF x) := by
          rw [List.filter_cons]
          simp [hgp]
        rw [this] at hfl
        exact hfl
      unfold findSpecByFlag
      rw [List.map_cons, List.find?_cons_of_neg]
      · exact ih hWFgs hflgs hfgs
      · simp only [decide_eq_true_eq, not_and]
        intro hreg
        exact absurd (by unfold isPosF at hgp; rw [hgp] at hreg; exact hreg rfl) not_false
    | false =>
      have hgsh := translateField_shape g hgOK
      have hgflags : (translateField g).flags = [flagHead g] := hgsh.1
      have hfilter : (g :: gs).filter (fun x => !isPosF x) =
          g :: gs.filter (fun x => !isPosF x) := by
        rw [List.filter_cons]
        simp [hgp]
      rw [hfilter, List.map_cons, List.nodup_cons] at hfl
      obtain ⟨hgnot, hflgs⟩ := hfl
      rcases List.mem_cons.mp hf with hfg | hfg
      · subst hfg
        unfold findSpecByFlag
        rw [List.map_cons, List.find?_cons_of_pos]
        simp only [decide_eq_true_eq]
        constructor
        · unfold isPosF at hnp
          rw [hnp]
          exact fun hh => absurd hh (by simp)
        · rw [hgflags]
          simp
      · have hne : flagHead g ≠ flagHead f := by
          intro hh
          apply hgnot
          rw [hh]
          exact List.mem_map_of_mem flagHead
            (List.mem_filter.mpr ⟨hfg, by rw [hnp]; rfl⟩)
        unfold findSpecByFlag
        rw [List.map_cons, List.find?_cons_of_neg]
        · exact ih hWFgs hflgs hfg
        · simp only [decide_eq_true_eq, not_and]
          intro _
          rw [hgflags]
          simp only [List.contains_cons, List.contains_nil, Bool.or_false]
          intro hbeq
          have hfg2 : flagHead f = flagHead g := by simpa using hbeq
          exact hne hfg2.symm

/-! ## The first pass consumes the rendered tokens as intended -/

theorem optAsgOf_cons (p : Field × PyVal) (pv : List (Field × PyVal)) :
    optAsgOf (p :: pv) = optContrib p.1 p.2 ++ optAsgOf pv := rfl

theorem posToksOf_cons (p : Field × PyVal) (pv : List (Field × PyVal)) :
    posToksOf (p :: pv) = posContrib p.1 p.2 ++ posToksOf pv := rfl

theorem posAsgOf_cons (p : Field × PyVal) (pv : List (Field × PyVal)) :
    posAsgOf (p :: pv) = posEntry p.1 p.2 ++ posAsgOf pv := rfl

theorem valToken_vInt (i : Int) : valToken (.vInt i) = ⟨intTokenChars i⟩ := rfl

theorem isBoolF_eq_bool (f : Field) (hb : isBoolF f = true) :
    (_extract_field_options f.ann).1 = .bool := by
  unfold isBoolF at hb
  exact (isBool_iff _).mp hb

theorem isOptionTok_valOK (f : Field) (v : PyVal) (hfOK : fieldOK f)
    (hvOK : valOK f v) (hb : isBoolF f = false) :
    isOptionTok (valToken v) = false := by
  rcases hfOK.1 with hti | hts | htb
  · obtain ⟨n, hn⟩ := hvOK.1 hti
    subst hn
    exact isOptionTok_valToken_int n
  · obtain ⟨s, hs, hh⟩ := hvOK.2.1 hts
    subst hs
    exact isOptionTok_of_head_not_dash s hh
  · unfold isBoolF at hb
    rw [htb] at hb
    exact absurd hb (by decide)

theorem convertTok_valToken (f : Field) (v : PyVal) (hfOK : fieldOK f)
    (hvOK : valOK f v) (hb : isBoolF f = false)
    (htyp : kwGet (translateField f).kwargs "type" =
      some (.typ (_extract_field_options f.ann).1)) :
    convertTok (translateField f).kwargs (valToken v) = .ok v := by
  rcases hfOK.1 with hti | hts | htb
  · obtain ⟨n, hn⟩ := hvOK.1 hti
    subst hn
    simp only [convertTok, htyp, hti, valToken_vInt, parsePyInt_intToken]
  · obtain ⟨s, hs, _⟩ := hvOK.2.1 hts
    subst hs
    simp only [convertTok, htyp, hts]
    rfl
  · unfold isBoolF at hb
    rw [htb] at hb
    exact absurd hb (by decide)

theorem scan_render (SPECS : List ArgSpec) (pv : List (Field × PyVal))
    (h : ∀ p ∈ pv, fieldOK p.1 ∧ valOK p.1 p.2 ∧
      (isPosF p.1 = false →
        findSpecByFlag SPECS (flagHead p.1) = some (translateField p.1))) :
    scanTokens SPECS none (pv.foldr (fun p acc => renderField p.1 p.2 ++ acc) []) =
      .ok (optAsgOf pv, posToksOf pv) := by
  induction pv with
  | nil => rfl
  | cons p rest ih =>
    obtain ⟨hfOK, hvOK, hfind⟩ := h p (List.mem_cons_self p rest)
    have ihr := ih (fun q hq => h q (List.mem_cons_of_mem p hq))
    obtain ⟨f, v⟩ := p
    obtain ⟨hFl, hDst, hPos, hNp, hNb, hBl⟩ := translateField_shape f hfOK
    simp only [List.foldr_cons, optAsgOf_cons, posToksOf_cons]
    cases hb : isBoolF f with
    | false =>
      obtain ⟨hact, htyp⟩ := hNb hb
      cases hp : isPosF f with
      | true =>
        have hp2 : registeredAsPositional (translateField f) = true := hp
        have hrf : renderField f v = [valToken v] := by
          simp only [renderField, hact, hp2, if_true]
        have hopt : isOptionTok (valToken v) = false := isOptionTok_valOK f v hfOK hvOK hb
        rw [hrf, List.singleton_append]
        simp only [scanTokens, hopt, Bool.false_eq_true, if_false, ihr]
        simp [optContrib, posContrib, hp]
      | false =>
        obtain ⟨c0, r0, hsh⟩ := hNp hp
        have hp2 : registeredAsPositional (translateField f) = false := hp
        have hrf : renderField f v = [flagHead f, valToken v] := by
          simp only [renderField, hact, hp2, Bool.false_eq_true, if_false]
          rfl
        have hoptFlag : isOptionTok (flagHead f) = true :=
          isOptionTok_dashdash _ c0 r0 hsh
        have hoptVal : isOptionTok (valToken v) = false :=
          isOptionTok_valOK f v hfOK hvOK hb
        have hconv : convertTok (translateField f).kwargs (valToken v) = .ok v :=
          convertTok_valToken f v hfOK hvOK hb htyp
        rw [hrf, List.cons_append, List.singleton_append]
        simp only [scanTokens, hoptFlag, if_true, hfind hp, hact, hoptVal,
          Bool.false_eq_true, if_false, hconv, ihr, hDst]
        simp [optContrib, posContrib, hp, hb]
    | true =>
      obtain ⟨hregF, hact, hdef⟩ := hBl hb
      obtain ⟨c0, r0, hsh⟩ := hNp hregF
      obtain ⟨bv, hbv⟩ := hvOK.2.2 (isBoolF_eq_bool f hb)
      have hbv2 : v = PyVal.vBool bv := hbv
      have hoptFlag : isOptionTok (flagHead f) = true :=
        isOptionTok_dashdash _ c0 r0 hsh
      by_cases hd : f.default = PyVal.vBool true
      · rw [if_pos hd] at hact
        have hst : storedVal f = .vBool false := by
          unfold storedVal
          rw [if_pos hd]
        by_cases hv : v = storedVal f
        · have hrf : renderField f v = [flagHead f] := by
            simp only [renderField, hact]
            rw [hv, hst]
            simp [flagHead]
          rw [hrf, List.singleton_append]
          simp only [scanTokens, hoptFlag, if_true, hfind hregF, hact]
          simp [ihr, hDst, optContrib, posContrib, hregF, hb, hv, hst]
        · have hbvt : bv = true := by
            cases bv
            · exact absurd (by rw [hbv2, hst]) hv
            · rfl
          have hrf : renderField f v = [] := by
            simp only [renderField, hact]
            rw [hbv2, hbvt]
            simp
          rw [hrf, List.nil_append, ihr]
          simp [optContrib, posContrib, hregF, hb, hv]
      · rw [if_neg hd] at hact
        have hst : storedVal f = .vBool true := by
          unfold storedVal
          rw [if_neg hd]
        by_cases hv : v = storedVal f
        · have hrf : renderField f v = [flagHead f] := by
            simp only [renderField, hact]
            rw [hv, hst]
            simp [flagHead]
          rw [hrf, List.singleton_append]
          simp only [scanTokens, hoptFlag, if_true, hfind hregF, hact]
          simp [ihr, hDst, optContrib, posContrib, hregF, hb, hv, hst]
        · have hbvt : bv = false := by
            cases bv
            · rfl
            · exact absurd (by rw [hbv2, hst]) hv
          have hrf : renderField f v = [] := by
            simp only [renderField, hact]
            rw [hbv2, hbvt]
            simp
          rw [hrf, List.nil_append, ihr]
          simp [optContrib, posContrib, hregF, hb, hv]

/-! ## The second pass assigns the positional tokens in order -/

theorem filter_map_translate (fields : List Field) :
    (fields.map translateField).filter registeredAsPositional =
      (fields.filter (fun g => isPosF g)).map translateField := by
  induction fields with
  | nil => rfl
  | cons g gs ih =>
    simp only [List.map_cons, List.filter_cons]
    cases hg : isPosF g with
    | true =>
      have hg2 : registeredAsPositional (translateField g) = true := hg
      simp [hg2, hg, ih]
    | false =>
      have hg2 : registeredAsPositional (translateField g) = false := hg
      simp [hg2, hg, ih]

theorem assign_pos (fields : List Field) (vals : List PyVal)
    (hlen : fields.length = vals.length)
    (h : ∀ p ∈ fields.zip vals, fieldOK p.1 ∧ valOK p.1 p.2) :
    assignPositionals ((fields.filter (fun g => isPosF g)).map translateField)
        (posToksOf (fields.zip vals)) =
      .ok (posAsgOf (fields.zip vals)) := by
  induction fields generalizing vals with
  | nil =>
    cases vals with
    | nil => rfl
    | cons v vs => cases hlen
  | cons f fs ih =>
    cases vals with
    | nil => cases hlen
    | cons v vs =>
      have hfv := h (f, v) (by rw [List.zip_cons_cons]; exact List.mem_cons_self _ _)
      have hrest : ∀ p ∈ fs.zip vs, fieldOK p.1 ∧ valOK p.1 p.2 := by
        intro p hp
        apply h p
        rw [List.zip_cons_cons]
        exact List.mem_cons_of_mem _ hp
      have hlen2 : fs.length = vs.length := by
        simpa using hlen
      obtain ⟨hFl, hDst, hPos, hNp, hNb, hBl⟩ := translateField_shape f hfv.1
      rw [List.zip_cons_cons, posToksOf_cons, posAsgOf_cons]
      cases hp : isPosF f with
      | true =>
        obtain ⟨hnb, _⟩ := hPos hp
        obtain ⟨hact, htyp⟩ := hNb hnb
        have hconv := convertTok_valToken f v hfv.1 hfv.2 hnb htyp
        rw [List.filter_cons]
        simp only [hp, if_true, List.map_cons]
        simp only [posContrib, posEntry, hp, if_true, List.singleton_append]
        simp only [assignPositionals, hconv, hDst, ih vs hlen2 hrest]
      | false =>
        rw [List.filter_cons]
        simp only [posContrib, posEntry, hp, Bool.false_eq_true, if_false,
          List.nil_append]
        exact ih vs hlen2 hrest

/-! ## Each destination holds its field's value -/

theorem optContrib_mem (f : Field) (v : PyVal) (x : String × PyVal)
    (hx : x ∈ optContrib f v) : x = (f.name, v) := by
  unfold optContrib at hx
  split at hx
  · cases hx
  · split at hx
    · split at hx
      · exact List.mem_singleton.mp hx
      · cases hx
    · exact List.mem_singleton.mp hx

theorem posEntry_mem (f : Field) (v : PyVal) (x : String × PyVal)
    (hx : x ∈ posEntry f v) : x = (f.name, v) := by
  unfold posEntry at hx
  split at hx
  · exact List.mem_singleton.mp hx
  · cases hx

theorem mem_optAsgOf (pv : List (Field × PyVal)) (x : String × PyVal) :
    x ∈ optAsgOf pv ↔ ∃ p, p ∈ pv ∧ x ∈ optContrib p.1 p.2 := by
  induction pv with
  | nil => simp [optAsgOf]
  | cons a as ih =>
    rw [optAsgOf_cons]
    simp only [List.mem_append, ih, List.mem_cons]
    constructor
    · rintro (hx | ⟨p, hp, hxp⟩)
      · exact ⟨a, Or.inl rfl, hx⟩
      · exact ⟨p, Or.inr hp, hxp⟩
    · rintro ⟨p, hp | hp, hxp⟩
      · subst hp
        exact Or.inl hxp
      · exact Or.inr ⟨p, hp, hxp⟩

theorem mem_posAsgOf (pv : List (Field × PyVal)) (x : String × PyVal) :
    x ∈ posAsgOf pv ↔ ∃ p, p ∈ pv ∧ x ∈ posEntry p.1 p.2 := by
  induction pv with
  | nil => simp [posAsgOf]
  | cons a as ih =>
    rw [posAsgOf_cons]
    simp only [List.mem_append, ih, List.mem_cons]
    constructor
    · rintro (hx | ⟨p, hp, hxp⟩)
      · exact ⟨a, Or.inl rfl, hx⟩
      · exact ⟨p, Or.inr hp, hxp⟩
    · rintro ⟨p, hp | hp, hxp⟩
      · subst hp
        exact Or.inl hxp
      · exact Or.inr ⟨p, hp, hxp⟩

theorem asg_entry_src (pv : List (Field × PyVal)) (x : String × PyVal)
    (hx : x ∈ optAsgOf pv ++ posAsgOf pv) :
    ∃ p, p ∈ pv ∧ x = (p.1.name, p.2) ∧
      (x ∈ optContrib p.1 p.2 ∨ x ∈ posEntry p.1 p.2) := by
  rcases List.mem_append.mp hx with hx2 | hx2
  · obtain ⟨p, hp, hxp⟩ := (mem_optAsgOf pv x).mp hx2
    exact ⟨p, hp, optContrib_mem _ _ _ hxp, Or.inl hxp⟩
  · obtain ⟨p, hp, hxp⟩ := (mem_posAsgOf pv x).mp hx2
    exact ⟨p, hp, posEntry_mem _ _ _ hxp, Or.inr hxp⟩

theorem zip_pair_inj (fields : List Field) (vals : List PyVal)
    (hnd : (fields.map Field.name).Nodup) (hlen : fields.length = vals.length)
    (p q : Field × PyVal) (hp : p ∈ fields.zip vals) (hq : q ∈ fields.zip vals)
    (hname : p.1.name = q.1.name) : p = q := by
  have hmap : (fields.zip vals).map (fun r => r.1.name) = fields.map Field.name := by
    have h1 : (fields.zip vals).map Prod.fst = fields :=
      List.map_fst_zip fields vals (le_of_eq hlen)
    calc (fields.zip vals).map (fun r => r.1.name)
        = ((fields.zip vals).map Prod.fst).map Field.name := by
          rw [List.map_map]
          rfl
      _ = fields.map Field.name := by rw [h1]
  have hnd2 : ((fields.zip vals).map (fun r => r.1.name)).Nodup := by
    rw [hmap]
    exact hnd
  exact List.inj_on_of_nodup_map hnd2 hp hq hname

/-- The parsed value reaching destination `f.name` is exactly `f`'s rendered
value: the last matching assignment when the pair contributed a token, the
argument's default when an omitted boolean toggle did not. -/
theorem field_value_correct (fields : List Field) (vals : List PyVal)
    (hWF : ∀ g ∈ fields, fieldOK g)
    (hnd : (fields.map Field.name).Nodup)
    (hlen : fields.length = vals.length)
    (hvals : ∀ p ∈ fields.zip vals, valOK p.1 p.2)
    (f : Field) (v : PyVal) (hmem : (f, v) ∈ fields.zip vals) :
    (match lastAssign (optAsgOf (fields.zip vals) ++ posAsgOf (fields.zip vals))
        f.name with
     | some w => w
     | none => defaultFor (translateField f)) = v := by
  have hfOK : fieldOK f := hWF f (List.of_mem_zip hmem).1
  obtain ⟨hFl, hDst, hPos, hNp, hNb, hBl⟩ := translateField_shape f hfOK
  have huniq : ∀ w, (f.name, w) ∈ optAsgOf (fields.zip vals) ++ posAsgOf (fields.zip vals)
      → w = v := by
    intro w hw
    obtain ⟨q, hq, hxq, _⟩ := asg_entry_src _ _ hw
    have hqname : f.name = q.1.name := congrArg Prod.fst hxq
    have hqe : (f, v) = q :=
      zip_pair_inj fields vals hnd hlen (f, v) q hmem hq hqname
    rw [← hqe] at hxq
    exact congrArg Prod.snd hxq
  by_cases hcon : (f.name, v) ∈ optContrib f v ∨ (f.name, v) ∈ posEntry f v
  · -- the pair contributed a token: the last assignment wins
    have hmemA : (f.name, v) ∈ optAsgOf (fields.zip vals) ++ posAsgOf (fields.zip vals) := by
      rcases hcon with hc | hc
      · exact List.mem_append.mpr (Or.inl ((mem_optAsgOf _ _).mpr ⟨(f, v), hmem, hc⟩))
      · exact List.mem_append.mpr (Or.inr ((mem_posAsgOf _ _).mpr ⟨(f, v), hmem, hc⟩))
    rw [lastAssign_eq_some _ _ _ hmemA huniq]
  · -- no token: an omitted boolean toggle; the default yields the value back
    push_neg at hcon
    obtain ⟨hconO, hconP⟩ := hcon
    have hnone : lastAssign (optAsgOf (fields.zip vals) ++ posAsgOf (fields.zip vals))
        f.name = none := by
      apply lastAssign_eq_none
      intro w hw
      have hwv : w = v := huniq w hw
      subst hwv
      obtain ⟨q, hq, hxq, hsrc⟩ := asg_entry_src _ _ hw
      have hqname : f.name = q.1.name := congrArg Prod.fst hxq
      have hqe : (f, w) = q :=
        zip_pair_inj fields vals hnd hlen (f, w) q hmem hq hqname
      rw [← hqe] at hsrc
      rcases hsrc with hs | hs
      · exact hconO hs
      · exact hconP hs
    rw [hnone]
    -- structural consequences of not contributing
    have hposF : isPosF f = false := by
      cases hpf : isPosF f with
      | false => rfl
      | true =>
        exact absurd (by unfold posEntry; rw [hpf]; simp : (f.name, v) ∈ posEntry f v) hconP
    have hboolF : isBoolF f = true := by
      cases hbf : isBoolF f with
      | true => rfl
      | false =>
        have : (f.name, v) ∈ optContrib f v := by
          unfold optContrib
          rw [hposF, hbf]
          simp
        exact absurd this hconO
    have hvne : ¬(v = storedVal f) := by
      intro hveq
      apply hconO
      unfold optContrib
      rw [hposF, hboolF]
      simp [hveq]
    obtain ⟨hregF, hact, hdef⟩ := hBl hboolF
    obtain ⟨bv, hbv⟩ := (hvals (f, v) hmem).2.2 (isBoolF_eq_bool f hboolF)
    have hbv2 : v = PyVal.vBool bv := hbv
    rcases hfOK.2.2.2.2.2 (isBoolF_eq_bool f hboolF) with ⟨bb, hdflt⟩ | ⟨hdflt, hfac⟩
    · have hcond : (f.default ≠ PyVal.vMissing ∨ f.factory.isSome = true) := by
        rw [hdflt]
        exact Or.inl (by simp)
      rw [if_pos hcond] at hdef
      unfold defaultFor
      rw [hdef]
      show f.default = v
      cases bb
      · have hst : storedVal f = .vBool true := by
          unfold storedVal
          rw [if_neg (by rw [hdflt]; simp)]
        have hbvf : bv = false := by
          cases bv
          · rfl
          · exact absurd (by rw [hbv2, hst]) hvne
        rw [hdflt, hbv2, hbvf]
      · have hst : storedVal f = .vBool false := by
          unfold storedVal
          rw [if_pos hdflt]
        have hbvt : bv = true := by
          cases bv
          · exact absurd (by rw [hbv2, hst]) hvne
          · rfl
        rw [hdflt, hbv2, hbvt]
    · have hcond : ¬(f.default ≠ PyVal.vMissing ∨ f.factory.isSome = true) := by
        rw [hdflt, hfac]
        simp
      rw [if_neg hcond] at hdef
      unfold defaultFor
      rw [hdef]
      show actionDefault (translateField f) = v
      unfold actionDefault
      rw [hact]
      have ha : (if f.default = PyVal.vBool true then ("store_false" : String)
          else "store_true") = "store_true" := by
        rw [if_neg (by rw [hdflt]; simp)]
      rw [ha]
      show PyVal.vBool false = v
      have hst : storedVal f = .vBool true := by
        unfold storedVal
        rw [if_neg (by rw [hdflt]; simp)]
      have hbvf : bv = false := by
        cases bv
        · rfl
        · exact absurd (by rw [hbv2, hst]) hvne
      rw [hbv2, hbvf]

/-! ## Reconstruction from the parsed namespace -/

theorem nsGet_build (fields : List Field) (valf : Field → NsVal)
    (hWF : ∀ g ∈ fields, fieldOK g)
    (hnd : (fields.map Field.name).Nodup)
    (f : Field) (hf : f ∈ fields) :
    nsGet (fields.map (fun g => (specDest (translateField g), valf g))) f.name =
      some (valf f) := by
  induction fields with
  | nil => cases hf
  | cons g gs ih =>
    have hgD : specDest (translateField g) = g.name :=
      (translateField_shape g (hWF g (List.mem_cons_self g gs))).2.1
    rw [List.map_cons, List.nodup_cons] at hnd
    simp only [List.map_cons, nsGet]
    rcases List.mem_cons.mp hf with hfg | hfg
    · subst hfg
      rw [hgD, if_pos rfl]
    · have hne2 : ¬(g.name = f.name) := by
        intro hh
        exact hnd.1 (hh ▸ List.mem_map_of_mem Field.name hfg)
      rw [hgD, if_neg hne2]
      exact ih (fun x hx => hWF x (List.mem_cons_of_mem g hx)) hnd.2 hfg

theorem ns_reconstruct (dcn : String) (fields : List Field) (vals : List PyVal)
    (NS : Namespace)
    (hlen : fields.length = vals.length)
    (hNS : ∀ p ∈ fields.zip vals, nsGet NS p.1.name = some (.py p.2)) :
    _namespace_to_dataclass NS ⟨dcn, fields⟩ = some (instOf fields vals) := by
  unfold _namespace_to_dataclass instOf
  induction fields generalizing vals with
  | nil =>
    cases vals with
    | nil => rfl
    | cons v vs => cases hlen
  | cons f fs ih =>
    cases vals with
    | nil => cases hlen
    | cons v vs =>
      have hhead : nsGet NS f.name = some (.py v) :=
        hNS (f, v) (by rw [List.zip_cons_cons]; exact List.mem_cons_self _ _)
      have hlen2 : fs.length = vs.length := by simpa using hlen
      have hrest : ∀ p ∈ fs.zip vs, nsGet NS p.1.name = some (.py p.2) := by
        intro p hp
        apply hNS p
        rw [List.zip_cons_cons]
        exact List.mem_cons_of_mem _ hp
      have ihr := ih vs hlen2 hrest
      simp only [List.zip_cons_cons, List.map_cons, List.mapM_cons, hhead,
        Option.map_some, Option.bind_some, Option.bind_eq_bind] at ihr ⊢
      rw [ihr]
      rfl

/-! ## Claim theorems: the round-trip property -/

/-- A schema with one plain positional string field `x`. -/
def exStrDC : DC :=
  { clsName := "Cx",
    fields := [{ name := "x", ann := .plain .str, default := .vMissing,
                 factory := none }] }

/-- C7, counterexample to the claim as stated: the instance `x = "-x"` of the
one-string-field schema renders to the token `-x`, which the parser treats as
an unknown option; parsing fails and no equal instance is produced. -/
theorem C7_round_trip_counterexample :
    roundTrip exStrDC [.vStr "-x"] = .error "unrecognized arguments: -x" ∧
    roundTrip exStrDC [.vStr "-x"] ≠
      .ok (instOf exStrDC.fields [.vStr "-x"]) := by
  constructor
  · rfl
  · intro h
    have h2 : Except.error (ε := String) (α := List (String × NsVal))
        "unrecognized arguments: -x" = .ok (instOf exStrDC.fields [.vStr "-x"]) :=
      (rfl : roundTrip exStrDC [.vStr "-x"] =
        .error "unrecognized arguments: -x").symm.trans h
    cases h2

/-- C7 (amended): for every schema instance in the supported fragment —
field types `int`, `str`, `bool`; at most one explicit long flag per field
and no extra keyword options; distinct identifier-like field names and
distinct flags; boolean fields holding boolean values and declaring a
boolean default or no default and no factory; rendered string values not
beginning with the option prefix — rendering the instance to equivalent
command-line tokens, parsing them with the parser built from the schema,
and reconstructing yields an instance equal to the original. -/
theorem C7_round_trip_amended (d : DC) (vals : List PyVal)
    (hOK : schemaOK d.fields) (hv : valsOK d.fields vals) :
    roundTrip d vals = .ok (instOf d.fields vals) := by
  obtain ⟨hWF, hnd, hflnd⟩ := hOK
  obtain ⟨hlen, hvals⟩ := hv
  obtain ⟨dcn, fields⟩ := d
  dsimp only at hWF hnd hflnd hlen hvals ⊢
  have hscan := scan_render (fields.map translateField) (fields.zip vals) ?hscanH
  case hscanH =>
    intro p hp
    refine ⟨hWF p.1 (List.of_mem_zip hp).1, hvals p hp, fun hnp => ?_⟩
    exact findSpecByFlag_of_mem fields hWF hflnd p.1 (List.of_mem_zip hp).1 hnp
  have hassign := assign_pos fields vals hlen
    (fun p hp => ⟨hWF p.1 (List.of_mem_zip hp).1, hvals p hp⟩)
  unfold roundTrip runParse _add_dataclass_arguments
  dsimp only
  rw [show renderTokens fields vals =
      (fields.zip vals).foldr (fun p acc => renderField p.1 p.2 ++ acc) [] from rfl]
  simp only [hscan, filter_map_translate, hassign, List.map_map, Function.comp_def]
  have hNS : ∀ p ∈ fields.zip vals,
      nsGet (fields.map (fun g =>
        (specDest (translateField g),
         NsVal.py (match lastAssign (optAsgOf (fields.zip vals) ++
             posAsgOf (fields.zip vals)) (specDest (translateField g)) with
           | some v => v
           | none => defaultFor (translateField g))))) p.1.name =
        some (.py p.2) := by
    intro p hp
    have hfOK : fieldOK p.1 := hWF p.1 (List.of_mem_zip hp).1
    have hD : specDest (translateField p.1) = p.1.name :=
      (translateField_shape p.1 hfOK).2.1
    rw [nsGet_build fields _ hWF hnd p.1 (List.of_mem_zip hp).1]
    rw [hD]
    have hval := field_value_correct fields vals hWF hnd hlen hvals p.1 p.2 (by
      obtain ⟨f0, v0⟩ := p
      exact hp)
    rw [hval]
  rw [ns_reconstruct dcn fields vals _ hlen hNS]

/-- Witness schema: `name: str` (positional), `port: int` with explicit flag
`--port`, `verbose: bool = False` (synthesized toggle). -/
def exWitDC : DC :=
  { clsName := "Serve",
    fields :=
      [{ name := "name", ann := .plain .str, default := .vMissing, factory := none },
       { name := "port", ann := .annotated .int [.arg ⟨["--port"], []⟩],
         default := .vMissing, factory := none },
       { name := "verbose", ann := .plain .bool, default := .vBool false,
         factory := none }] }

theorem exWit_schemaOK : schemaOK exWitDC.fields := by
  refine ⟨?_, by decide, by decide⟩
  intro f hf
  simp only [exWitDC, List.mem_cons, List.not_mem_nil, or_false] at hf
  rcases hf with hf | hf | hf
  · subst hf
    refine ⟨Or.inr (Or.inl rfl), rfl, Or.inl rfl, by decide, by decide, ?_⟩
    intro h
    exact nomatch (show PyType.str = PyType.bool from h)
  · subst hf
    refine ⟨Or.inl rfl, rfl, ?_, by decide, by decide, ?_⟩
    · exact Or.inr ⟨"--port", rfl, 'p', ['o', 'r', 't'], by decide⟩
    · intro h
      exact nomatch (show PyType.int = PyType.bool from h)
  · subst hf
    refine ⟨Or.inr (Or.inr rfl), rfl, Or.inl rfl, by decide, by decide, ?_⟩
    intro h2
    exact Or.inl ⟨false, rfl⟩

theorem exWit_valsOK :
    valsOK exWitDC.fields [.vStr "alice", .vInt 8080, .vBool true] := by
  refine ⟨rfl, ?_⟩
  intro p hp
  simp only [exWitDC, List.zip_cons_cons, List.zip_nil_right, List.mem_cons,
    List.not_mem_nil, or_false] at hp
  rcases hp with hp | hp | hp
  · subst hp
    refine ⟨?_, ?_, ?_⟩
    · intro h
      exact nomatch (show PyType.str = PyType.int from h)
    · intro h2
      exact ⟨"alice", rfl, rfl⟩
    · intro h
      exact nomatch (show PyType.str = PyType.bool from h)
  · subst hp
    refine ⟨?_, ?_, ?_⟩
    · intro h2
      exact ⟨8080, rfl⟩
    · intro h
      exact nomatch (show PyType.int = PyType.str from h)
    · intro h
      exact nomatch (show PyType.int = PyType.bool from h)
  · subst hp
    refine ⟨?_, ?_, ?_⟩
    · intro h
      exact nomatch (show PyType.bool = PyType.int from h)
    · intro h
      exact nomatch (show PyType.bool = PyType.str from h)
    · intro h2
      exact ⟨true, rfl⟩

theorem C7_round_trip_amended_witness :
    roundTrip exWitDC [.vStr "alice", .vInt 8080, .vBool true] =
      .ok [("name", .py (.vStr "alice")), ("port", .py (.vInt 8080)),
           ("verbose", .py (.vBool true))] := by
  rw [C7_round_trip_amended exWitDC [.vStr "alice", .vInt 8080, .vBool true]
    exWit_schemaOK exWit_valsOK]
  rfl

end Autoparser
